import Mathlib

/-!
libreactor: connection lifecycle, event loop and circular buffer.

A shallow embedding of `src/src/Connection.cpp` and `src/src/EventLoop.cpp`
together with the `CircularBuffer` they use, and the properties of the
specification that can be stated over it.

Conventions of the embedding

* A C++ object is a Lean structure; a method is a function that takes the
  object (or the whole `World`) and returns the new one.
* A method that can dereference a null pointer or leave through `exit`
  returns `Except Error _`.
* The thread that executes a call is an explicit argument `inLoop`, the value
  `is_in_loop_thread()` has for that thread.
* User callbacks are opaque: an invocation is recorded in the trace of the
  world and has no other effect.
-/

namespace net

/-! ## CircularBuffer -/

abbrev Byte := UInt8

/-- Repeated doubling of `cap` until it is at least `need`; the first argument
bounds the number of doublings. -/
def double_until (need : Nat) : Nat → Nat → Nat
  | 0, cap => cap
  | fuel + 1, cap => if need ≤ cap then cap else double_until need fuel (2 * cap)

/-- Modelled from the spec: the rounding of a requested size to a power of two
(`utils.h` is not in src). The capacity of a buffer is a power of two, reached
by doubling from one. -/
def roundup_pow_of_two (n : Nat) : Nat :=
  double_until n n 1

/-- Modelled from the spec: `CircularBuffer` (`CircularBuffer.h` and
`CircularBuffer.cpp` are not in src; only its test and its callers are).
Section 3 of the spec: a storage of `C` bytes with `C` a power of two, a head
and a tail that are free-running unsigned counters, stored bytes `t - h`, and
the storage index of counter value `i` is `i & (C - 1)`. The spec gives the
counters no width, so they are natural numbers. -/
structure CircularBuffer where
  storage : List Byte
  head : Nat
  tail : Nat
deriving DecidableEq

namespace CircularBuffer

/-- Modelled from the spec: the constructor takes a requested size and allocates
a power-of-two capacity (the test builds buffers of size 30, 2, 128 and 1). -/
def new (size : Nat) : CircularBuffer :=
  { storage := List.replicate (roundup_pow_of_two size) 0, head := 0, tail := 0 }

/-- Modelled from the spec: `capacity()`, the size of the storage. -/
def capacity (b : CircularBuffer) : Nat :=
  b.storage.length

/-- Modelled from the spec: `readable()`, stored bytes `t - h`. -/
def readable (b : CircularBuffer) : Nat :=
  b.tail - b.head

/-- Modelled from the spec: `writable()`, the free room. -/
def writable (b : CircularBuffer) : Nat :=
  b.capacity - b.readable

/-- Modelled from the spec: empty iff `h == t`. -/
def empty (b : CircularBuffer) : Bool :=
  b.head == b.tail

/-- Modelled from the spec: index into storage `i & (C - 1)`. -/
def index (b : CircularBuffer) (i : Nat) : Nat :=
  i &&& (b.capacity - 1)

/-- Modelled from the spec: `peek`, the first `min n size` stored bytes, read
through the mask starting at the head; the buffer is not changed. -/
def peek (b : CircularBuffer) (n : Nat) : List Byte :=
  (List.range (min n b.readable)).map (fun i => b.storage.getD (b.index (b.head + i)) 0)

/-- Modelled from the spec: `get(dst, n)` copies `min(n, size)` bytes out and
advances the head by that many. The first component is what was copied to `dst`. -/
def get (b : CircularBuffer) (n : Nat) : List Byte × CircularBuffer :=
  (b.peek n, { b with head := b.head + min n b.readable })

/-- Modelled from the spec: growth. The capacity is doubled until `n` more
bytes fit; the stored bytes are kept, moved in order to the front of the new
storage (re-linearised). -/
def grow (b : CircularBuffer) (n : Nat) : CircularBuffer :=
  let cap := double_until (b.readable + n) (b.readable + n) b.capacity
  { storage := b.peek b.readable ++ List.replicate (cap - b.readable) 0,
    head := 0,
    tail := b.readable }

/-- Copy of `src` into a storage of capacity `cap`, byte by byte through the
mask, starting at counter value `pos`. -/
def write_at (cap : Nat) : List Byte → Nat → List Byte → List Byte
  | st, _, [] => st
  | st, pos, x :: xs => write_at cap (st.set (pos &&& (cap - 1)) x) (pos + 1) xs

/-- Modelled from the spec: `put(src, n)` with `src` the `n` bytes given. When
`t - h + n > C` the buffer grows first; then the bytes are written at the tail
and the tail advances by `n`. -/
def put (b : CircularBuffer) (src : List Byte) : CircularBuffer :=
  let b1 := if b.readable + src.length > b.capacity then b.grow src.length else b
  { b1 with
    storage := write_at b1.capacity b1.storage b1.tail src,
    tail := b1.tail + src.length }

/-- Modelled from the spec: `clear()` drops every stored byte (force_close
"clears the egress buffer"). -/
def clear (b : CircularBuffer) : CircularBuffer :=
  { b with head := 0, tail := 0 }

/-- Modelled from the spec: `write_to_fd`. `wrote` is what the scatter write of
the kernel returned: negative for a fatal error, otherwise the number of bytes
it took (at most the stored bytes). The return value is the total written or
the negative value; the head advances over the bytes written. -/
def write_to_fd (b : CircularBuffer) (wrote : Int) : Int × CircularBuffer :=
  if wrote < 0 then (wrote, b)
  else
    let n := min wrote.toNat b.readable
    ((n : Int), { b with head := b.head + n })

/-- The stored bytes in FIFO order. -/
def contents (b : CircularBuffer) : List Byte :=
  b.peek b.readable

/-- The representation invariant of section 3 of the spec. -/
def WF (b : CircularBuffer) : Prop :=
  (∃ k, b.capacity = 2 ^ k) ∧ b.head ≤ b.tail ∧ b.tail - b.head ≤ b.capacity

end CircularBuffer

/-- A request to a circular buffer. -/
inductive BufferOp where
  | put (src : List Byte)
  | get (n : Nat)
deriving DecidableEq

/-- The state of a run of requests: the buffer, the bytes given to `put` so far
and the bytes returned by `get` so far. -/
structure BufferRun where
  buffer : CircularBuffer
  given : List Byte
  returned : List Byte
deriving DecidableEq

/-- One request. -/
def BufferRun.step (r : BufferRun) : BufferOp → BufferRun
  | .put src => { r with buffer := r.buffer.put src, given := r.given ++ src }
  | .get n =>
    let res := r.buffer.get n
    { r with buffer := res.2, returned := r.returned ++ res.1 }

/-- A sequence of requests on a fresh buffer of requested size `c`. -/
def run_ops (c : Nat) (ops : List BufferOp) : BufferRun :=
  ops.foldl BufferRun.step { buffer := CircularBuffer.new c, given := [], returned := [] }

/-- What a run keeps true: the buffer is well formed and the bytes given are the
bytes returned followed by the bytes still stored. -/
def BufferRun.Inv (r : BufferRun) : Prop :=
  r.buffer.WF ∧ r.given = r.returned ++ r.buffer.contents

/-! ## Channel, Connection and EventLoop: the data -/

/-- The states of a connection (`Connection.h` is not in src; the names are the
ones `Connection.cpp` uses). -/
inductive State where
  | New
  | Receiving
  | Disconnecting
  | Closed
deriving DecidableEq

/-- Modelled from the spec: `Channel` (`Channel.h` is not in src), section 3 and
4.2: a channel owns a descriptor and its current interest mask (readable?
writable?). Only the mask is kept here; the selection callbacks a channel holds
are the handlers of the connection below. -/
structure Channel where
  reading : Bool
  writing : Bool
deriving DecidableEq

namespace Channel

/-- Modelled from the spec: a new channel has no interest. -/
def new : Channel := { reading := false, writing := false }

/-- Modelled from the spec: `enable_reading` adds the readable interest bit. -/
def enable_reading (c : Channel) : Channel := { c with reading := true }

/-- Modelled from the spec: `enable_writing` adds the writable interest bit. -/
def enable_writing (c : Channel) : Channel := { c with writing := true }

/-- Modelled from the spec: `disable_reading` removes the readable interest bit. -/
def disable_reading (c : Channel) : Channel := { c with reading := false }

/-- Modelled from the spec: `disable_writing` removes the writable interest bit. -/
def disable_writing (c : Channel) : Channel := { c with writing := false }

/-- Modelled from the spec: `disable_all` clears both bits. -/
def disable_all (_ : Channel) : Channel := { reading := false, writing := false }

end Channel

/-- The ways a call can fail to return. -/
inductive Error where
  /-- A member is called through a null pointer. -/
  | null_pointer
  /-- The process leaves through `exit(code)`. -/
  | exit (code : Int)
deriving DecidableEq

/-- A connection: the members of `Connection::Connection` and the callbacks.
A callback member says whether a user callback is installed. -/
structure Connection where
  channel_ : Option Channel
  fd_ : Nat
  state_ : State
  buffer_out_ : Option CircularBuffer
  read_message_callback_ : Bool
  connection_closed_callback_ : Bool
  error_callback_ : Bool
deriving DecidableEq

/-- The closures handed to `EventLoop::post`, by the place that builds them. -/
inductive Callback where
  /-- The lambda of `Connection::close`. -/
  | close
  /-- The lambda of `Connection::force_close`. -/
  | force_close
  /-- The lambda of the two `Connection::write`, with the bytes it captured. -/
  | do_write (data : List Byte) (len : Nat)
  /-- The lambda of `EventLoop::on_new_connection`. -/
  | new_connection
  /-- Any other callback, opaque. -/
  | other (id : Nat)
deriving DecidableEq

/-- What a run leaves in the trace. -/
inductive Event where
  /-- The user callback `read_message_callback_` is invoked with these bytes. -/
  | read_message_callback (data : List Byte)
  /-- The user callback `connection_closed_callback_` is invoked. -/
  | connection_closed_callback
  /-- The user callback `error_callback_` is invoked. -/
  | error_callback
  /-- The call `loop_->remove_connection(fd)`. -/
  | remove_connection (fd : Nat)
  /-- The call `channel->handle_read(time)` of `run` for the key of `fd`. -/
  | handle_read (fd : Nat)
  /-- The call `channel->handle_wirte(time)` of `run` for the key of `fd`. -/
  | handle_wirte (fd : Nat)
  /-- The call `callbacks[i]()` of `run`. -/
  | run_callback (cb : Callback)
  /-- The call `callback()` of `post`. -/
  | post_callback (cb : Callback)
deriving DecidableEq

/-- The members of an event loop that the code under study reads or writes.
`connections_` is the key set of the fd to connection map, `wakeup_fd_` the
descriptor of the eventfd and `wakeup_count` the counter the kernel keeps for it. -/
structure EventLoop where
  callbacks_ : List Callback
  connections_ : List Nat
  wakeup_fd_ : Nat
  wakeup_count : Nat
  established_callback_ : Option Bool
  read_message_callback_ : Bool
  connection_closed_callback_ : Bool
deriving DecidableEq

/-- One connection, the loop it is pinned to, and the trace so far. -/
structure World where
  conn : Connection
  loop : EventLoop
  trace : List Event
deriving DecidableEq

/-- The record of the selector for a descriptor after a poll: the ready mask
(`SelectionKey.h` is not in src). -/
structure SelectionKey where
  fd : Nat
  is_readable : Bool
  is_writable : Bool
  is_closed : Bool
deriving DecidableEq

/-- A ready key together with what the kernel answers to its handlers in this
turn: the result of `::read` with the bytes it left, and the result of the
scatter write. -/
structure Ready where
  key : SelectionKey
  read_n : Int
  received : List Byte
  wrote : Int
deriving DecidableEq

/-- The events that can close a connection: `close()`, `force_close()`, a
zero-byte read, and the expiry of its entry in the timing wheel. -/
inductive CloseEvent where
  | close
  | force_close
  | read_zero
  | idle_expiry
deriving DecidableEq

/-! ## EventLoop and Connection: the operations -/

/-- Append an event to the trace. -/
def World.emit (w : World) (e : Event) : World :=
  { w with trace := w.trace ++ [e] }

namespace EventLoop

/-- Modelled from the spec: `remove_connection(fd)` (declared in `EventLoop.h`,
not in src) removes the connection from the fd map. The call is recorded. -/
def remove_connection (fd : Nat) (w : World) : World :=
  { w with
    loop := { w.loop with connections_ := w.loop.connections_.filter (fun k => k != fd) },
    trace := w.trace ++ [Event.remove_connection fd] }

/-- The function `EventLoop::wake_up`: nothing on the loop thread, otherwise one write of 1
to the eventfd. -/
def wake_up (inLoop : Bool) (w : World) : World :=
  if inLoop then w
  else { w with loop := { w.loop with wakeup_count := w.loop.wakeup_count + 1 } }

/-- The function `EventLoop::post`. A closure is its name `cb` and its code `body`; the code
takes the thread it runs on. On the loop thread the closure is called in place,
otherwise it is pushed at the back of `callbacks_` and the loop is woken. -/
def post (inLoop : Bool) (cb : Callback) (body : Bool → World → Except Error World)
    (w : World) : Except Error World :=
  if inLoop then
    body true (w.emit (Event.post_callback cb))
  else
    .ok (wake_up inLoop
      { w with loop := { w.loop with callbacks_ := w.loop.callbacks_ ++ [cb] } })

end EventLoop

namespace Connection

/-- The connection `Connection::Connection` builds. -/
def new (fd : Nat) : Connection :=
  { channel_ := none, fd_ := fd, state_ := State.New, buffer_out_ := none,
    read_message_callback_ := false, connection_closed_callback_ := false,
    error_callback_ := false }

/-- Modelled from the spec: `is_closed()` (defined in `Connection.h`, not in
src): the connection is in state `Closed`. -/
def is_closed (c : Connection) : Bool :=
  c.state_ == State.Closed

/-- The function `Connection::has_bytes_to_write`. -/
def has_bytes_to_write (c : Connection) : Bool :=
  match c.buffer_out_ with
  | none => false
  | some b => !b.empty

/-- The stored bytes of the egress buffer; none when it is not allocated. -/
def queued (c : Connection) : List Byte :=
  match c.buffer_out_ with
  | none => []
  | some b => b.contents

/-- The function `Connection::accept`: the channel is created with readable interest and the
state becomes `Receiving` (a state other than `New` is only logged). -/
def accept (c : Connection) : Connection :=
  { c with channel_ := some Channel.new.enable_reading, state_ := State.Receiving }

/-- The lambda of `Connection::close`. -/
def close_cb (w : World) : World :=
  if !w.conn.has_bytes_to_write then
    let w1 := { w with conn := { w.conn with state_ := State.Closed } }
    let w2 := if w1.conn.connection_closed_callback_ then
        w1.emit Event.connection_closed_callback else w1
    EventLoop.remove_connection w2.conn.fd_ w2
  else
    { w with conn := { w.conn with state_ := State.Disconnecting } }

/-- The function `Connection::close`. -/
def close (inLoop : Bool) (w : World) : Except Error World :=
  EventLoop.post inLoop Callback.close (fun _ w1 => .ok (close_cb w1)) w

/-- The lambda of `Connection::force_close`. -/
def force_close_cb (w : World) : Except Error World :=
  let w1 := { w with conn := { w.conn with state_ := State.Closed } }
  match w1.conn.buffer_out_ with
  | none => .error Error.null_pointer
  | some b =>
    let w2 := { w1 with conn := { w1.conn with buffer_out_ := some b.clear } }
    match w2.conn.channel_ with
    | none => .error Error.null_pointer
    | some ch =>
      let w3 := { w2 with conn := { w2.conn with channel_ := some ch.disable_all } }
      if w3.conn.fd_ ∈ w3.loop.connections_ then
        let w4 := if w3.conn.connection_closed_callback_ then
            w3.emit Event.connection_closed_callback else w3
        .ok (EventLoop.remove_connection w4.conn.fd_ w4)
      else
        .ok w3

/-- The function `Connection::force_close`. -/
def force_close (inLoop : Bool) (w : World) : Except Error World :=
  EventLoop.post inLoop Callback.force_close (fun _ w1 => force_close_cb w1) w

/-- The function `Connection::do_write`; `data` are the bytes at the pointer, `len` the count. -/
def do_write (inLoop : Bool) (data : List Byte) (len : Nat) (w : World) : Except Error World :=
  if w.conn.state_ == State.Closed then
    force_close inLoop w
  else
    let b := match w.conn.buffer_out_ with
      | none => CircularBuffer.new len
      | some b => b
    let w1 := { w with conn := { w.conn with buffer_out_ := some (b.put (data.take len)) } }
    match w1.conn.channel_ with
    | none => .error Error.null_pointer
    | some ch => .ok { w1 with conn := { w1.conn with channel_ := some ch.enable_writing } }

/-- The function `Connection::write(const void*, uint32_t)`. -/
def write (inLoop : Bool) (data : List Byte) (len : Nat) (w : World) :
    Except Error (Bool × World) :=
  if w.conn.is_closed then
    .ok (false, w)
  else if inLoop then
    (do_write inLoop data len w).map (fun w1 => (true, w1))
  else
    (EventLoop.post inLoop (Callback.do_write (data.take len) len)
      (fun t w1 => do_write t (data.take len) len w1) w).map (fun w1 => (true, w1))

end Connection

/-- Modelled from the spec: `ByteBuffer` (`ByteBuffer.h` is not in src), as far
as `Connection::write` reads it: the bytes at `data()` and `remaining()`. -/
structure ByteBuffer where
  data : List Byte
  remaining : Nat
deriving DecidableEq

namespace Connection

/-- The function `Connection::write(const ByteBuffer&)`. -/
def write_buffer (inLoop : Bool) (buffer : ByteBuffer) (w : World) :
    Except Error (Bool × World) :=
  if w.conn.is_closed then
    .ok (false, w)
  else if inLoop then
    (do_write inLoop buffer.data buffer.remaining w).map (fun w1 => (true, w1))
  else
    (EventLoop.post inLoop (Callback.do_write buffer.data buffer.remaining)
      (fun t w1 => do_write t buffer.data buffer.remaining w1) w).map (fun w1 => (true, w1))

/-- The function `Connection::handle_write`. `wrote` is the result of the scatter write of
the kernel inside `write_to_fd`. -/
def handle_write (inLoop : Bool) (wrote : Int) (w : World) : Except Error World :=
  match w.conn.buffer_out_ with
  | none => .error Error.null_pointer
  | some b =>
    if b.empty then
      .error (Error.exit (-1))
    else
      let r := b.write_to_fd wrote
      let total := r.1
      let w1 := { w with conn := { w.conn with buffer_out_ := some r.2 } }
      if total < 0 then
        (force_close inLoop w1).map (fun w2 =>
          if w2.conn.error_callback_ then w2.emit Event.error_callback else w2)
      else if total == 0 then
        force_close inLoop w1
      else if w1.conn.state_ == State.Disconnecting then
        match w1.conn.channel_ with
        | none => .error Error.null_pointer
        | some ch =>
          close inLoop { w1 with conn := { w1.conn with channel_ := some ch.disable_writing } }
      else if r.2.empty then
        match w1.conn.channel_ with
        | none => .error Error.null_pointer
        | some ch =>
          .ok { w1 with conn := { w1.conn with channel_ := some ch.disable_writing } }
      else
        .ok w1

/-- The lambda `read_cb` of `Connection::accept`. `n` is the result of `::read`
and `received` the bytes it left in the ingress buffer. -/
def read_cb (inLoop : Bool) (n : Int) (received : List Byte) (w : World) : Except Error World :=
  if n < 0 then
    let w1 := if w.conn.error_callback_ then w.emit Event.error_callback else w
    force_close inLoop w1
  else if n == 0 then
    match w.conn.channel_ with
    | none => .error Error.null_pointer
    | some ch =>
      close inLoop { w with conn := { w.conn with channel_ := some ch.disable_reading } }
  else
    if w.conn.read_message_callback_ then
      .ok (w.emit (Event.read_message_callback (received.take n.toNat)))
    else
      .ok w

/-- The lambda `error_cb` of `Connection::accept`. -/
def error_cb (inLoop : Bool) (w : World) : Except Error World :=
  force_close inLoop w

end Connection

/-- Modelled from the spec: the destructor of `ConnectionEntry` (declared in
`TimingWheel.h`; `TimingWheel.cpp` is not in src). Section 4.7: when an entry
is destroyed its destructor upgrades the weak connection handle and calls
`force_close`. The handle is taken to upgrade. -/
def ConnectionEntry.destroy (inLoop : Bool) (w : World) : Except Error World :=
  Connection.force_close inLoop w

namespace EventLoop

/-- The lambda of `EventLoop::on_new_connection`. -/
def on_new_connection_cb (w : World) : World :=
  let w1 := { w with conn := w.conn.accept }
  { w1 with loop := { w1.loop with
      connections_ := if w1.conn.fd_ ∈ w1.loop.connections_ then w1.loop.connections_
        else w1.conn.fd_ :: w1.loop.connections_ } }

/-- The function `EventLoop::on_new_connection`. The verdict of the established callback,
when one is installed, is the value of `established_callback_`. -/
def on_new_connection (inLoop : Bool) (fd : Nat) (w : World) : Except Error World :=
  let accept := match w.loop.established_callback_ with
    | none => true
    | some verdict => verdict
  if !accept then
    .ok w
  else
    let conn := { Connection.new fd with
      read_message_callback_ := w.loop.read_message_callback_,
      connection_closed_callback_ := w.loop.connection_closed_callback_ }
    post inLoop Callback.new_connection (fun _ w1 => .ok (on_new_connection_cb w1))
      { w with conn := conn }

end EventLoop

/-- The code of a closure, by its name. -/
def Callback.run (inLoop : Bool) : Callback → World → Except Error World
  | .close, w => .ok (Connection.close_cb w)
  | .force_close, w => Connection.force_close_cb w
  | .do_write data len, w => Connection.do_write inLoop data len w
  | .new_connection, w => .ok (EventLoop.on_new_connection_cb w)
  | .other _, w => .ok w

/-- The lambda `EventLoop::EventLoop` gives to the wakeup channel: it reads the
eventfd, which resets its counter. -/
def EventLoop.wakeup_read_cb (w : World) : World :=
  { w with loop := { w.loop with wakeup_count := 0 } }

/-- Modelled from the spec: `Channel::handle_read` (`Channel.cpp` is not in src)
calls the read callback of the channel of the key. For the wakeup descriptor
that is the lambda of `EventLoop::EventLoop`, for the descriptor of the
connection, once it has its channel, the lambda `read_cb`. The channels of
other descriptors are outside this world. -/
def Channel.handle_read (inLoop : Bool) (r : Ready) (w : World) : Except Error World :=
  if r.key.fd = w.loop.wakeup_fd_ then
    .ok (EventLoop.wakeup_read_cb w)
  else if r.key.fd = w.conn.fd_ ∧ w.conn.channel_.isSome then
    Connection.read_cb inLoop r.read_n r.received w
  else
    .ok w

/-- Modelled from the spec: `Channel::handle_wirte` (`Channel.cpp` is not in
src) calls the write callback of the channel of the key: for the descriptor of
the connection, once it has its channel, the lambda `write_cb`, which calls
`handle_write`. -/
def Channel.handle_wirte (inLoop : Bool) (r : Ready) (w : World) : Except Error World :=
  if r.key.fd = w.conn.fd_ ∧ w.conn.channel_.isSome then
    Connection.handle_write inLoop r.wrote w
  else
    .ok w

namespace EventLoop

/-- The body of the `for` over `active_keys_` in `run`; each call of a handler is
recorded before it is made. -/
def dispatch (inLoop : Bool) (r : Ready) (w : World) : Except Error World :=
  match (if r.key.is_readable then
      Channel.handle_read inLoop r (w.emit (Event.handle_read r.key.fd)) else .ok w) with
  | .error e => .error e
  | .ok w1 =>
    if r.key.is_writable then
      Channel.handle_wirte inLoop r (w1.emit (Event.handle_wirte r.key.fd))
    else .ok w1

/-- The `for` over `active_keys_` in `run`. -/
def dispatch_all (inLoop : Bool) : List Ready → World → Except Error World
  | [], w => .ok w
  | r :: rest, w =>
    match dispatch inLoop r w with
    | .error e => .error e
    | .ok w1 => dispatch_all inLoop rest w1

/-- The loop over the swapped queue in `run`. -/
def run_callbacks (inLoop : Bool) : List Callback → World → Except Error World
  | [], w => .ok w
  | cb :: rest, w =>
    match Callback.run inLoop cb (w.emit (Event.run_callback cb)) with
    | .error e => .error e
    | .ok w1 => run_callbacks inLoop rest w1

/-- One turn of the `while` of `EventLoop::run`, from the return of `select`
with `active_keys` to the next test of `is_quit_`. -/
def run_iteration (inLoop : Bool) (active_keys : List Ready) (w : World) :
    Except Error World :=
  if active_keys.isEmpty then
    .ok w
  else
    match dispatch_all inLoop active_keys w with
    | .error e => .error e
    | .ok w1 =>
      let callbacks := w1.loop.callbacks_
      let w2 := { w1 with loop := { w1.loop with callbacks_ := [] } }
      run_callbacks inLoop callbacks w2

end EventLoop

/-- One closing event, processed on thread `inLoop`. -/
def CloseEvent.step (inLoop : Bool) : CloseEvent → World → Except Error World
  | .close, w => Connection.close inLoop w
  | .force_close, w => Connection.force_close inLoop w
  | .read_zero, w => Connection.read_cb inLoop 0 [] w
  | .idle_expiry, w => ConnectionEntry.destroy inLoop w

/-- A sequence of such events, in order. -/
def CloseEvent.steps (inLoop : Bool) : List CloseEvent → World → Except Error World
  | [], w => .ok w
  | e :: es, w =>
    match CloseEvent.step inLoop e w with
    | .error err => .error err
    | .ok w1 => CloseEvent.steps inLoop es w1

/-- The loop `EventLoop::EventLoop` builds on the eventfd `wakeup_fd`, with the
user callbacks given to it. -/
def EventLoop.new (wakeup_fd : Nat) (read_message closed : Bool) : EventLoop :=
  { callbacks_ := [], connections_ := [], wakeup_fd_ := wakeup_fd, wakeup_count := 0,
    established_callback_ := none,
    read_message_callback_ := read_message, connection_closed_callback_ := closed }

/-- A world before any connection: the connection slot holds an unaccepted one. -/
def World.boot (loop : EventLoop) : World :=
  { conn := Connection.new 0, loop := loop, trace := [] }

/-- The events `run` itself records: a handler dispatched for a ready key, or a
callback of the swapped queue called. -/
def Event.is_loop_level : Event → Bool
  | .handle_read _ => true
  | .handle_wirte _ => true
  | .run_callback _ => true
  | _ => false

/-- The events of one ready key in `run`: the readable handler, then the
writable handler, each when its bit is ready. -/
def SelectionKey.dispatch_events (key : SelectionKey) : List Event :=
  (if key.is_readable then [Event.handle_read key.fd] else [])
    ++ (if key.is_writable then [Event.handle_wirte key.fd] else [])

/-- The part of a world that a closure run on the loop thread does not touch,
and the shape of what it adds to the trace. -/
def Framed (cb : Callback) (w w1 : World) : Prop :=
  w1.loop.callbacks_ = w.loop.callbacks_ ∧ w1.loop.wakeup_count = w.loop.wakeup_count ∧
    ∃ delta : List Event, w1.trace = w.trace ++ delta ∧
      ∀ e ∈ delta, e ≠ Event.post_callback cb ∧ e.is_loop_level = false

/-- The ordering of one turn of `run` from the return of `select` with
`active_keys`, on the owner thread: when the turn ends, the calls `run` has
made since `select` returned are first the handlers of the ready keys, key by
key, readable before writable, then the callbacks that were pending at the
return of `select`, in queue order, and the pending queue is left empty. -/
def EventLoop.IterationOrdered (active_keys : List Ready) (w : World) : Prop :=
  ∀ w1 : World, EventLoop.run_iteration true active_keys w = .ok w1 →
    w1.loop.callbacks_ = [] ∧
    ∃ added : List Event, w1.trace = w.trace ++ added ∧
      added.filter Event.is_loop_level
        = active_keys.flatMap (fun r => r.key.dispatch_events)
            ++ w.loop.callbacks_.map Event.run_callback

/-- The closures of the connection can run: its channel and its egress buffer
are allocated. -/
def Connection.allocated (c : Connection) : Prop :=
  c.channel_.isSome = true ∧ c.buffer_out_.isSome = true

/-- The egress buffer, when allocated, satisfies the invariant of the buffer. -/
def Connection.buffer_WF (c : Connection) : Prop :=
  ∀ b, c.buffer_out_ = some b → b.WF

/-- The world the lambda of `force_close` reaches before it looks the fd up in
the map, when the buffer `b` and the channel `ch` are allocated. -/
def Connection.force_closed (w : World) (b : CircularBuffer) (ch : Channel) : World :=
  { w with conn := { w.conn with
      state_ := State.Closed, buffer_out_ := some b.clear, channel_ := some ch.disable_all } }

/-- The graceful events: `close()` and the zero-byte read, which calls it. -/
def CloseEvent.is_graceful : CloseEvent → Bool
  | .close => true
  | .read_zero => true
  | .force_close => false
  | .idle_expiry => false

/-- Every `close()` and zero-byte read of the sequence is processed while the
connection is still in the loop map. -/
def CloseEvent.guarded (inLoop : Bool) : List CloseEvent → World → Bool
  | [], _ => true
  | e :: es, w =>
    (!e.is_graceful || decide (w.conn.fd_ ∈ w.loop.connections_)) &&
      match CloseEvent.step inLoop e w with
      | .error _ => true
      | .ok w1 => CloseEvent.guarded inLoop es w1

/-- How often the closed callback has been invoked. -/
def World.closed_count (w : World) : Nat :=
  w.trace.count Event.connection_closed_callback

/-- How often `remove_connection(fd)` has been called. -/
def World.remove_count (w : World) (fd : Nat) : Nat :=
  w.trace.count (Event.remove_connection fd)

/-- The sequence of events, processed on the owner thread, ends and over it the
closed callback fires exactly once and `remove_connection(fd)` is called
exactly once. -/
def CloseEvent.TeardownOnce (es : List CloseEvent) (w : World) : Prop :=
  ∃ w1 : World, CloseEvent.steps true es w = .ok w1 ∧
    w1.closed_count = w.closed_count + 1 ∧
    w1.remove_count w.conn.fd_ = w.remove_count w.conn.fd_ + 1

/-- The sequence holds an event that tears the connection down when it is still
installed: a `force_close()` or an idle expiry, or any event at all when no
bytes are queued. -/
def CloseEvent.fires (es : List CloseEvent) (w : World) : Prop :=
  (∃ e ∈ es, e.is_graceful = false) ∨ (es ≠ [] ∧ w.conn.has_bytes_to_write = false)

/-- What the events keep true of a connection: channel and egress buffer
allocated, closed callback installed. -/
def World.Ready (w : World) : Prop :=
  w.conn.allocated ∧ w.conn.connection_closed_callback_ = true

/-- What a handler or closure run on the loop thread leaves alone: the pending
queue is as before and the trace has only gained events that are not calls
made by `run` itself. -/
def Quiet (w w1 : World) : Prop :=
  w1.loop.callbacks_ = w.loop.callbacks_ ∧
    ∃ added : List Event, w1.trace = w.trace ++ added ∧
      added.filter Event.is_loop_level = []

/-- The calls that reach a connection: the two `write`, `close`, `force_close`,
the handlers of its channel with the answer of the kernel, a pending closure
run by the loop, and the expiry of its entry in the timing wheel. -/
inductive Action where
  | write (data : List Byte) (len : Nat)
  | write_buffer (buffer : ByteBuffer)
  | close
  | force_close
  | readable (n : Int) (received : List Byte)
  | writable (wrote : Int)
  | error
  | run_callback (cb : Callback)
  | idle_expiry
deriving DecidableEq

/-- One call, made on thread `inLoop`. -/
def Action.apply (inLoop : Bool) : Action → World → Except Error World
  | .write data len, w => (Connection.write inLoop data len w).map (fun r => r.2)
  | .write_buffer buffer, w => (Connection.write_buffer inLoop buffer w).map (fun r => r.2)
  | .close, w => Connection.close inLoop w
  | .force_close, w => Connection.force_close inLoop w
  | .readable n received, w => Connection.read_cb inLoop n received w
  | .writable wrote, w => Connection.handle_write inLoop wrote w
  | .error, w => Connection.error_cb inLoop w
  | .run_callback cb, w => Callback.run inLoop cb w
  | .idle_expiry, w => ConnectionEntry.destroy inLoop w

/-! ## Sample worlds -/

namespace Example

/-- Connection 5 accepted on the loop thread by a loop with a read and a closed
callback: the world `on_new_connection` leaves. No write has been queued. -/
def accepted : World :=
  { conn := { channel_ := some { reading := true, writing := false }, fd_ := 5,
              state_ := State.Receiving, buffer_out_ := none,
              read_message_callback_ := true, connection_closed_callback_ := true,
              error_callback_ := false },
    loop := { callbacks_ := [], connections_ := [5], wakeup_fd_ := 3, wakeup_count := 0,
              established_callback_ := none, read_message_callback_ := true,
              connection_closed_callback_ := true },
    trace := [Event.post_callback Callback.new_connection] }

/-- The same with an error callback installed on the connection. -/
def with_error_callback : World :=
  { accepted with conn := { accepted.conn with error_callback_ := true } }

/-- The same after `write` of the two bytes 1, 2 on the loop thread. -/
def queued : World :=
  { with_error_callback with
    conn := { with_error_callback.conn with
      channel_ := some { reading := true, writing := true },
      buffer_out_ := some { storage := [1, 2], head := 0, tail := 2 } } }

/-- The same after `close()` on the loop thread: bytes are queued, so the state
is `Disconnecting`. -/
def disconnecting : World :=
  { queued with
    conn := { queued.conn with state_ := State.Disconnecting },
    trace := queued.trace ++ [Event.post_callback Callback.close] }

/-- A loop just built on which another thread has posted one callback, before
any connection. -/
def posted : World :=
  { World.boot (EventLoop.new 3 true true) with
    loop := { EventLoop.new 3 true true with
      callbacks_ := [Callback.other 7], wakeup_count := 1 } }

end Example

namespace Example

/-- The world `queued` with two callbacks pending, posted by another thread. -/
def pending : World :=
  { queued with
    loop := { queued.loop with
      callbacks_ := [Callback.other 7, Callback.do_write [3] 1], wakeup_count := 2 } }

/-- Ready keys of a turn: the wakeup descriptor 3, readable, and descriptor 9,
readable and writable. -/
def keys : List Ready :=
  [{ key := { fd := 3, is_readable := true, is_writable := false, is_closed := false },
     read_n := 0, received := [], wrote := 0 },
   { key := { fd := 9, is_readable := true, is_writable := true, is_closed := false },
     read_n := 4, received := [1, 2, 3, 4], wrote := 0 }]

/-- The bytes `buf_src` of the tests: 0, 1, ..., n - 1. -/
def buf_src (n : Nat) : List Byte :=
  (List.range n).map (fun i => UInt8.ofNat i)

end Example



/-! ## CircularBuffer: arithmetic of the mask and of doubling -/

theorem double_until_pow (need : Nat) :
    ∀ fuel cap, ∃ j, double_until need fuel cap = cap * 2 ^ j := by
  intro fuel
  induction fuel with
  | zero => intro cap; exact ⟨0, by simp [double_until]⟩
  | succ f ih =>
    intro cap
    by_cases h : need ≤ cap
    · exact ⟨0, by simp [double_until, h]⟩
    · obtain ⟨j, hj⟩ := ih (2 * cap)
      refine ⟨j + 1, ?_⟩
      simp only [double_until, h, if_false, hj]
      ring

theorem double_until_ge (need : Nat) :
    ∀ fuel cap, need ≤ cap * 2 ^ fuel → need ≤ double_until need fuel cap := by
  intro fuel
  induction fuel with
  | zero => intro cap h; simpa [double_until] using h
  | succ f ih =>
    intro cap h
    by_cases hc : need ≤ cap
    · simp [double_until, hc]
    · simp only [double_until, hc, if_false]
      apply ih
      calc need ≤ cap * 2 ^ (f + 1) := h
        _ = 2 * cap * 2 ^ f := by ring

theorem double_until_enough (need cap : Nat) (hcap : 0 < cap) :
    need ≤ double_until need need cap := by
  apply double_until_ge
  calc need ≤ 2 ^ need := Nat.le_of_lt (Nat.lt_two_pow need)
    _ = 1 * 2 ^ need := by ring
    _ ≤ cap * 2 ^ need := Nat.mul_le_mul_right _ hcap

theorem mask_eq_mod (i k : Nat) : i &&& (2 ^ k - 1) = i % 2 ^ k :=
  Nat.and_pow_two_sub_one_eq_mod i k

theorem mod_shift_ne (cap pos d : Nat) (hd : 0 < d) (hdc : d < cap) :
    (pos + d) % cap ≠ pos % cap := by
  intro h
  have h1 : Nat.ModEq cap (pos + d) (pos + 0) := by simpa [Nat.ModEq] using h
  have h2 : Nat.ModEq cap d 0 := Nat.ModEq.add_left_cancel' pos h1
  have h3 : cap ∣ d := (Nat.modEq_zero_iff_dvd).1 h2
  have := Nat.le_of_dvd hd h3
  omega

theorem getD_set_eq (st : List Byte) (i : Nat) (x d : Byte) (hi : i < st.length) :
    (st.set i x).getD i d = x := by
  simp [List.getD_eq_getElem?_getD, List.getElem?_set, hi]

theorem getD_set_ne (st : List Byte) (i j : Nat) (x d : Byte) (hij : i ≠ j) :
    (st.set i x).getD j d = st.getD j d := by
  simp [List.getD_eq_getElem?_getD, List.getElem?_set, hij]


/-! ## CircularBuffer: the copy through the mask -/

theorem write_at_length (cap : Nat) (src : List Byte) :
    ∀ (st : List Byte) (pos : Nat), (CircularBuffer.write_at cap st pos src).length = st.length := by
  induction src with
  | nil => intro st pos; rfl
  | cons x xs ih => intro st pos; simp [CircularBuffer.write_at, ih]

theorem write_at_getD (k : Nat) (src : List Byte) :
    ∀ (st : List Byte) (pos j : Nat), st.length = 2 ^ k → src.length ≤ 2 ^ k → j < 2 ^ k →
      (CircularBuffer.write_at (2 ^ k) st pos src).getD ((pos + j) % 2 ^ k) 0
        = if j < src.length then src.getD j 0 else st.getD ((pos + j) % 2 ^ k) 0 := by
  induction src with
  | nil => intro st pos j _ _ _; simp [CircularBuffer.write_at]
  | cons x xs ih =>
    intro st pos j hst hsrc hj
    have hpos : 0 < 2 ^ k := Nat.two_pow_pos k
    have hlen : (st.set (pos % 2 ^ k) x).length = 2 ^ k := by simp [hst]
    have hxs : xs.length ≤ 2 ^ k := by simp at hsrc; omega
    have hxs1 : xs.length + 1 ≤ 2 ^ k := by simpa using hsrc
    simp only [CircularBuffer.write_at, mask_eq_mod]
    cases j with
    | zero =>
      have h1 : (pos + 0) % 2 ^ k = (pos + 1 + (2 ^ k - 1)) % 2 ^ k := by
        have : pos + 1 + (2 ^ k - 1) = pos + 2 ^ k := by omega
        rw [this]; simp
      rw [h1, ih _ (pos + 1) (2 ^ k - 1) hlen hxs (by omega)]
      have h2 : ¬ (2 ^ k - 1 < xs.length) := by omega
      rw [if_neg h2, ← h1]
      simp only [Nat.add_zero]
      rw [getD_set_eq _ _ _ _ (by rw [hst]; exact Nat.mod_lt _ hpos)]
      simp
    | succ j' =>
      have h1 : (pos + (j' + 1)) % 2 ^ k = (pos + 1 + j') % 2 ^ k := by
        congr 1; omega
      rw [h1, ih _ (pos + 1) j' hlen hxs (by omega)]
      by_cases hj' : j' < xs.length
      · simp [hj']
      · have h3 : ¬ (j' + 1 < (x :: xs).length) := by simpa using hj'
        rw [if_neg hj', if_neg h3]
        apply getD_set_ne
        rw [← h1]
        exact (mod_shift_ne _ pos (j' + 1) (by omega) hj).symm

/-! ## CircularBuffer: the stored bytes under put, get and growth -/

namespace CircularBuffer

theorem peek_length (b : CircularBuffer) (n : Nat) :
    (b.peek n).length = min n b.readable := by
  simp [peek]

theorem contents_length (b : CircularBuffer) : b.contents.length = b.readable := by
  simp [contents, peek_length]

theorem peek_getElem (b : CircularBuffer) (n i : Nat) (h : i < (b.peek n).length) :
    (b.peek n)[i] = b.storage.getD ((b.head + i) &&& (b.capacity - 1)) 0 := by
  simp [peek, index]

theorem contents_getElem (b : CircularBuffer) (i : Nat) (h : i < b.contents.length) :
    b.contents[i] = b.storage.getD ((b.head + i) &&& (b.capacity - 1)) 0 :=
  peek_getElem b b.readable i h

theorem new_capacity (size : Nat) : ∃ k, (new size).capacity = 2 ^ k := by
  obtain ⟨j, hj⟩ := double_until_pow size size 1
  exact ⟨j, by simp [new, capacity, roundup_pow_of_two, hj]⟩

theorem new_WF (size : Nat) : (new size).WF :=
  ⟨new_capacity size, by simp [new], by simp [new]⟩

theorem new_contents (size : Nat) : (new size).contents = [] := by
  simp [contents, peek, new, readable]

theorem peek_eq_take (b : CircularBuffer) (n : Nat) : b.peek n = b.contents.take n := by
  apply List.ext_getElem
  · simp [peek_length, contents_length]
  · intro i h1 h2
    rw [peek_getElem, List.getElem_take, contents_getElem]

theorem get_fst (b : CircularBuffer) (n : Nat) : (b.get n).1 = b.contents.take n :=
  peek_eq_take b n

theorem get_WF (b : CircularBuffer) (n : Nat) (h : b.WF) : (b.get n).2.WF := by
  obtain ⟨hk, hle, hsz⟩ := h
  refine ⟨hk, ?_, ?_⟩
  · simp only [get, readable]; omega
  · simp only [get, readable, capacity] at *; omega

theorem get_contents (b : CircularBuffer) (n : Nat) (h : b.WF) :
    (b.get n).2.contents = b.contents.drop n := by
  obtain ⟨_, hle, _⟩ := h
  have hr : (b.get n).2.readable = b.readable - n := by
    simp only [get, readable]; omega
  apply List.ext_getElem
  · simp [contents_length, hr]
  · intro i h1 h2
    rw [contents_getElem, List.getElem_drop, contents_getElem]
    have hi : i < b.readable - n := by simpa [contents_length, hr] using h1
    have : min n b.readable = n := by omega
    simp only [get, capacity, this]
    congr 2
    omega

theorem grow_capacity (b : CircularBuffer) (n : Nat) (h : b.WF) :
    (∃ k, (b.grow n).capacity = 2 ^ k) ∧ b.readable + n ≤ (b.grow n).capacity := by
  obtain ⟨⟨k, hk⟩, _, _⟩ := h
  have hpos : 0 < b.capacity := by rw [hk]; exact Nat.two_pow_pos k
  have hge := double_until_enough (b.readable + n) b.capacity hpos
  obtain ⟨j, hj⟩ := double_until_pow (b.readable + n) (b.readable + n) b.capacity
  have hcap : (b.grow n).capacity
      = double_until (b.readable + n) (b.readable + n) b.capacity := by
    simp only [grow, capacity, List.length_append, List.length_replicate]
    have := peek_length b b.readable
    simp only [capacity] at hge
    omega
  refine ⟨⟨k + j, ?_⟩, ?_⟩
  · rw [hcap, hj, hk, pow_add]
  · rw [hcap]; exact hge

theorem grow_readable (b : CircularBuffer) (n : Nat) : (b.grow n).readable = b.readable := by
  simp [grow, readable]

theorem grow_WF (b : CircularBuffer) (n : Nat) (h : b.WF) : (b.grow n).WF := by
  obtain ⟨hk, hfit⟩ := grow_capacity b n h
  refine ⟨hk, by simp [grow], ?_⟩
  have := grow_readable b n
  simp only [readable] at this hfit
  omega

theorem grow_contents (b : CircularBuffer) (n : Nat) (h : b.WF) :
    (b.grow n).contents = b.contents := by
  obtain ⟨⟨k, hk⟩, hfit⟩ := grow_capacity b n h
  apply List.ext_getElem
  · simp [contents_length, grow_readable]
  · intro i h1 h2
    have hi : i < b.readable := by simpa [contents_length] using h2
    rw [contents_getElem, hk, mask_eq_mod]
    have hlt : i < 2 ^ k := by omega
    have hhead : (b.grow n).head = 0 := rfl
    rw [hhead, Nat.zero_add, Nat.mod_eq_of_lt hlt]
    have hst : (b.grow n).storage
        = b.contents ++ List.replicate
            (double_until (b.readable + n) (b.readable + n) b.capacity - b.readable) 0 := rfl
    rw [hst, List.getD_append _ _ _ _ (by simpa [contents_length] using hi)]
    exact List.getD_eq_getElem _ _ h2

end CircularBuffer

namespace CircularBuffer

/-- Writing at the tail when the bytes fit: the stored bytes gain `src` at the end. -/
theorem write_contents (b : CircularBuffer) (src : List Byte) (h : b.WF)
    (hfit : b.readable + src.length ≤ b.capacity) :
    ({ b with storage := write_at b.capacity b.storage b.tail src,
              tail := b.tail + src.length } : CircularBuffer).contents = b.contents ++ src := by
  obtain ⟨⟨k, hk⟩, hle, hsz⟩ := h
  have hpos : 0 < 2 ^ k := Nat.two_pow_pos k
  have hcap : b.storage.length = 2 ^ k := hk
  have hsz2 : b.tail - b.head ≤ 2 ^ k := by rw [← hcap]; exact hsz
  apply List.ext_getElem
  · simp only [contents_length, List.length_append, readable]; omega
  · intro i h1 h2
    have hi : i < b.readable + src.length := by
      simpa [contents_length] using h2
    rw [contents_getElem]
    simp only [capacity, write_at_length]
    rw [hcap, mask_eq_mod]
    simp only [capacity, readable] at hfit hi hk
    rw [hcap] at hfit
    by_cases hir : i < b.readable
    · have hir' : i < b.tail - b.head := hir
      have hidx : (b.head + i) % 2 ^ k = (b.tail + (2 ^ k - (b.tail - b.head) + i)) % 2 ^ k := by
        have : b.tail + (2 ^ k - (b.tail - b.head) + i) = b.head + i + 2 ^ k := by omega
        rw [this]; simp
      rw [hidx, write_at_getD k src b.storage b.tail _ hcap (by omega) (by omega)]
      rw [if_neg (by omega), ← hidx]
      rw [List.getElem_append_left (by simpa [contents_length] using hir)]
      rw [contents_getElem]
      simp only [capacity]
      rw [hcap, mask_eq_mod]
    · have hidx : b.head + i = b.tail + (i - (b.tail - b.head)) := by
        simp only [readable] at hir; omega
      simp only [readable] at hir
      rw [hidx, write_at_getD k src b.storage b.tail _ hcap (by omega) (by omega)]
      rw [if_pos (by omega)]
      rw [List.getElem_append_right (by simp [contents_length, readable]; omega)]
      rw [List.getD_eq_getElem _ _ (by omega)]
      simp [contents_length, readable]

theorem put_contents (b : CircularBuffer) (src : List Byte) (h : b.WF) :
    (b.put src).contents = b.contents ++ src := by
  unfold put
  by_cases hg : b.readable + src.length > b.capacity
  · simp only [hg, if_true]
    have hw := grow_WF b src.length h
    have hfit : (b.grow src.length).readable + src.length ≤ (b.grow src.length).capacity := by
      rw [grow_readable]; exact (grow_capacity b src.length h).2
    rw [write_contents _ src hw hfit, grow_contents b _ h]
  · simp only [hg, if_false]
    exact write_contents b src h (by omega)

theorem put_WF (b : CircularBuffer) (src : List Byte) (h : b.WF) : (b.put src).WF := by
  have key : ∀ c : CircularBuffer, c.WF → c.readable + src.length ≤ c.capacity →
      ({ c with storage := write_at c.capacity c.storage c.tail src,
                tail := c.tail + src.length } : CircularBuffer).WF := by
    intro c hc hfit
    obtain ⟨⟨k, hk⟩, hle, hsz⟩ := hc
    refine ⟨⟨k, ?_⟩, ?_, ?_⟩
    · simpa [capacity, write_at_length] using hk
    · show c.head ≤ c.tail + src.length
      omega
    · simp only [capacity, write_at_length, readable] at *
      omega
  unfold put
  by_cases hg : b.readable + src.length > b.capacity
  · simp only [hg, if_true]
    apply key _ (grow_WF b src.length h)
    rw [grow_readable]; exact (grow_capacity b src.length h).2
  · simp only [hg, if_false]
    exact key b h (by omega)

theorem WF_readable_le (b : CircularBuffer) (h : b.WF) : b.readable ≤ b.capacity :=
  h.2.2

theorem empty_iff_contents (b : CircularBuffer) (h : b.WF) :
    b.empty = true ↔ b.contents = [] := by
  obtain ⟨_, hle, _⟩ := h
  rw [← List.length_eq_zero, contents_length]
  simp only [empty, readable, beq_iff_eq]
  omega

end CircularBuffer

/-! ## CircularBuffer: runs of requests -/

theorem BufferRun.step_Inv (r : BufferRun) (op : BufferOp) (h : r.Inv) : (r.step op).Inv := by
  obtain ⟨hwf, hg⟩ := h
  cases op with
  | put src =>
    refine ⟨CircularBuffer.put_WF _ _ hwf, ?_⟩
    simp only [BufferRun.step, CircularBuffer.put_contents _ _ hwf, hg, List.append_assoc]
  | get n =>
    refine ⟨CircularBuffer.get_WF _ _ hwf, ?_⟩
    simp only [BufferRun.step, CircularBuffer.get_contents _ _ hwf, CircularBuffer.get_fst, hg,
      List.append_assoc, List.take_append_drop]

theorem BufferRun.foldl_Inv (ops : List BufferOp) :
    ∀ r : BufferRun, r.Inv → (ops.foldl BufferRun.step r).Inv := by
  induction ops with
  | nil => intro r h; exact h
  | cons op ops ih => intro r h; exact ih _ (BufferRun.step_Inv r op h)

theorem run_ops_Inv (c : Nat) (ops : List BufferOp) : (run_ops c ops).Inv := by
  apply BufferRun.foldl_Inv
  exact ⟨CircularBuffer.new_WF c, by simp [CircularBuffer.new_contents]⟩

/-- C2. CircularBuffer is a FIFO byte queue. For every requested capacity `c`
and byte sequence `s`, `put(s)` followed by `get(out, |s|)` on a fresh buffer
gives `out = s`, whatever the relation of `|s|` to `c`; the same holds on the
drained buffer left by any earlier run of requests, where head and tail stand
anywhere in the storage; and for every sequence of `put` and `get` requests the
bytes returned by the gets, concatenated, are a prefix of the bytes given to
the puts, concatenated. -/
theorem circular_buffer_fifo :
    (∀ (c : Nat) (s : List Byte),
        (((CircularBuffer.new c).put s).get s.length).1 = s) ∧
    (∀ (c : Nat) (ops : List BufferOp) (s : List Byte),
        ((((run_ops c ops).buffer.get (run_ops c ops).buffer.readable).2.put s).get s.length).1
          = s) ∧
    (∀ (c : Nat) (ops : List BufferOp),
        (run_ops c ops).returned <+: (run_ops c ops).given) := by
  refine ⟨?_, ?_, ?_⟩
  · intro c s
    rw [CircularBuffer.get_fst, CircularBuffer.put_contents _ _ (CircularBuffer.new_WF c),
      CircularBuffer.new_contents]
    simp
  · intro c ops s
    have hwf := (run_ops_Inv c ops).1
    have hwf2 := CircularBuffer.get_WF _ (run_ops c ops).buffer.readable hwf
    rw [CircularBuffer.get_fst, CircularBuffer.put_contents _ _ hwf2,
      CircularBuffer.get_contents _ _ hwf]
    have : List.drop (run_ops c ops).buffer.readable (run_ops c ops).buffer.contents = [] := by
      apply List.drop_of_length_le
      rw [CircularBuffer.contents_length]
    rw [this]
    simp
  · intro c ops
    exact ⟨_, (run_ops_Inv c ops).2.symm⟩

/-- C9. CircularBuffer capacity invariant. For every requested initial size and
every sequence of `put` and `get` requests after it, `capacity()` is a power of
two and the number of stored bytes is at most `capacity()`. -/
theorem circular_buffer_capacity_invariant (c : Nat) (ops : List BufferOp) :
    (∃ k, (run_ops c ops).buffer.capacity = 2 ^ k) ∧
      (run_ops c ops).buffer.readable ≤ (run_ops c ops).buffer.capacity :=
  ⟨(run_ops_Inv c ops).1.1, (run_ops_Inv c ops).1.2.2⟩

/-! ## Connection::close -/

/-- C8. Graceful close transition. `close()` on the owner thread returns and
does exactly one of two things. If no bytes are queued (the egress buffer is
not allocated, or its head equals its tail) the state becomes `Closed`, the
closed callback, when one is installed, is invoked once, `remove_connection`
is called once and the fd is no longer in the loop map. Otherwise the state
becomes `Disconnecting`, no callback is invoked, and the loop, the egress
buffer and the channel are unchanged. -/
theorem close_transition (w : World) :
    (w.conn.has_bytes_to_write = false ↔
        (w.conn.buffer_out_ = none ∨ ∃ b, w.conn.buffer_out_ = some b ∧ b.head = b.tail)) ∧
    ∃ w1 : World, Connection.close true w = .ok w1 ∧
      ((w.conn.has_bytes_to_write = false ∧
          w1.conn.state_ = State.Closed ∧
          w1.trace = w.trace ++ [Event.post_callback Callback.close]
            ++ (if w.conn.connection_closed_callback_ then [Event.connection_closed_callback]
                else [])
            ++ [Event.remove_connection w.conn.fd_] ∧
          w.conn.fd_ ∉ w1.loop.connections_ ∧
          (∀ fd, fd ≠ w.conn.fd_ → (fd ∈ w1.loop.connections_ ↔ fd ∈ w.loop.connections_)) ∧
          w1.conn.buffer_out_ = w.conn.buffer_out_)
        ∨
       (w.conn.has_bytes_to_write = true ∧
          w1.conn.state_ = State.Disconnecting ∧
          w1.trace = w.trace ++ [Event.post_callback Callback.close] ∧
          w1.loop = w.loop ∧
          w1.conn.buffer_out_ = w.conn.buffer_out_ ∧
          w1.conn.channel_ = w.conn.channel_)) := by
  constructor
  · unfold Connection.has_bytes_to_write
    cases hb : w.conn.buffer_out_ with
    | none => simp
    | some b => simp [CircularBuffer.empty]
  · cases hq : w.conn.has_bytes_to_write with
    | false =>
      refine ⟨_, rfl, Or.inl ⟨rfl, ?_, ?_, ?_, ?_, ?_⟩⟩
      · simp [Connection.close_cb, World.emit, hq, EventLoop.remove_connection]
        split <;> rfl
      · simp [Connection.close_cb, World.emit, hq, EventLoop.remove_connection]
        split <;> simp
      · simp [Connection.close_cb, World.emit, hq, EventLoop.remove_connection]
        split <;> simp
      · simp [Connection.close_cb, World.emit, hq, EventLoop.remove_connection]
        split <;> (simp [List.mem_filter]; intro fd h _; exact h)
      · simp [Connection.close_cb, World.emit, hq, EventLoop.remove_connection]
        split <;> rfl
    | true =>
      refine ⟨_, rfl, Or.inr ⟨rfl, ?_, ?_, ?_, ?_, ?_⟩⟩ <;>
        simp [Connection.close_cb, World.emit, hq]

/-! ## What the closures leave alone -/

theorem framed_refl (cb : Callback) (w : World) : Framed cb w w :=
  ⟨rfl, rfl, [], by simp, by simp⟩

theorem close_cb_framed (cb : Callback) (w : World) : Framed cb w (Connection.close_cb w) := by
  unfold Connection.close_cb
  by_cases hq : w.conn.has_bytes_to_write = true
  · simp only [hq, Bool.not_true, Bool.false_eq_true, if_false]
    exact ⟨rfl, rfl, [], by simp, by simp⟩
  · have hq2 : w.conn.has_bytes_to_write = false := by simpa using hq
    by_cases hc : w.conn.connection_closed_callback_ = true
    · simp only [hq2, hc, Bool.not_false, if_true]
      refine ⟨rfl, rfl, [Event.connection_closed_callback,
        Event.remove_connection w.conn.fd_], ?_, ?_⟩
      · simp [World.emit, EventLoop.remove_connection]
      · intro e he
        simp at he
        rcases he with rfl | rfl <;> simp [Event.is_loop_level]
    · simp only [hq2, hc, Bool.not_false, if_true, if_false]
      refine ⟨rfl, rfl, [Event.remove_connection w.conn.fd_], ?_, ?_⟩
      · simp [World.emit, EventLoop.remove_connection]
      · intro e he
        simp at he
        subst he
        simp [Event.is_loop_level]

theorem force_close_cb_framed (cb : Callback) (w w1 : World)
    (h : Connection.force_close_cb w = .ok w1) : Framed cb w w1 := by
  unfold Connection.force_close_cb at h
  cases hb : w.conn.buffer_out_ with
  | none => simp [hb] at h
  | some b =>
    cases hch : w.conn.channel_ with
    | none => simp [hb, hch] at h
    | some ch =>
      simp only [hb, hch] at h
      by_cases hin : w.conn.fd_ ∈ w.loop.connections_
      · simp only [hin, if_true] at h
        by_cases hc : w.conn.connection_closed_callback_ = true
        · simp only [hc, if_true, Except.ok.injEq] at h
          subst h
          refine ⟨rfl, rfl, [Event.connection_closed_callback,
            Event.remove_connection w.conn.fd_], ?_, ?_⟩
          · simp [World.emit, EventLoop.remove_connection]
          · intro e he
            simp at he
            rcases he with rfl | rfl <;> simp [Event.is_loop_level]
        · simp only [hc, Except.ok.injEq] at h
          subst h
          refine ⟨rfl, rfl, [Event.remove_connection w.conn.fd_], ?_, ?_⟩
          · simp [World.emit, EventLoop.remove_connection]
          · intro e he
            simp at he
            subst he
            simp [Event.is_loop_level]
      · simp only [hin, if_false, Except.ok.injEq] at h
        subst h
        exact ⟨rfl, rfl, [], by simp, by simp⟩

theorem do_write_framed (data : List Byte) (len : Nat) (w w1 : World)
    (h : Connection.do_write true data len w = .ok w1) :
    Framed (Callback.do_write data len) w w1 := by
  unfold Connection.do_write at h
  by_cases hs : w.conn.state_ = State.Closed
  · simp only [hs, beq_self_eq_true, if_true] at h
    have h2 : Connection.force_close_cb (w.emit (Event.post_callback Callback.force_close))
        = .ok w1 := h
    obtain ⟨hq, hw, delta, ht, hd⟩ :=
      force_close_cb_framed (Callback.do_write data len) _ _ h2
    refine ⟨hq, hw, Event.post_callback Callback.force_close :: delta, ?_, ?_⟩
    · simpa [World.emit] using ht
    · intro e he
      rcases List.mem_cons.1 he with rfl | he
      · simp [Event.is_loop_level]
      · exact hd e he
  · have hs2 : (w.conn.state_ == State.Closed) = false := by simpa using hs
    simp only [hs2] at h
    cases hch : w.conn.channel_ with
    | none => simp [hch] at h
    | some ch =>
      simp only [hch, Bool.false_eq_true, if_false, Except.ok.injEq] at h
      subst h
      exact ⟨rfl, rfl, [], by simp, by simp⟩

theorem Callback.run_framed (cb : Callback) (w w1 : World)
    (h : Callback.run true cb w = .ok w1) : Framed cb w w1 := by
  cases cb with
  | close =>
    simp only [Callback.run, Except.ok.injEq] at h
    subst h
    exact close_cb_framed _ w
  | force_close => exact force_close_cb_framed _ w w1 h
  | do_write data len => exact do_write_framed data len w w1 h
  | new_connection =>
    simp only [Callback.run, Except.ok.injEq] at h
    subst h
    exact ⟨rfl, rfl, [], by simp [EventLoop.on_new_connection_cb], by simp⟩
  | other id =>
    simp only [Callback.run, Except.ok.injEq] at h
    subst h
    exact framed_refl _ w

/-! ## EventLoop::run -/

theorem framed_filter_trace (cb : Callback) (w w1 : World) (h : Framed cb w w1) :
    ∃ delta, w1.trace = w.trace ++ delta ∧ delta.filter Event.is_loop_level = [] := by
  obtain ⟨_, _, delta, ht, hd⟩ := h
  refine ⟨delta, ht, ?_⟩
  rw [List.filter_eq_nil_iff]
  intro e he
  simp [(hd e he).2]

theorem framed_count_post (cb : Callback) (w w1 : World) (h : Framed cb w w1) :
    w1.trace.count (Event.post_callback cb) = w.trace.count (Event.post_callback cb) := by
  obtain ⟨_, _, delta, ht, hd⟩ := h
  rw [ht, List.count_append]
  have : delta.count (Event.post_callback cb) = 0 := by
    rw [List.count_eq_zero]
    intro hmem
    exact (hd _ hmem).1 rfl
  omega

theorem framed_quiet (cb : Callback) (w w1 : World) (h : Framed cb w w1) : Quiet w w1 :=
  ⟨h.1, framed_filter_trace cb w w1 h⟩

theorem quiet_refl (w : World) : Quiet w w :=
  ⟨rfl, [], by simp, rfl⟩

theorem quiet_trans (w w1 w2 : World) (h1 : Quiet w w1) (h2 : Quiet w1 w2) : Quiet w w2 := by
  obtain ⟨hq1, a1, ht1, hf1⟩ := h1
  obtain ⟨hq2, a2, ht2, hf2⟩ := h2
  refine ⟨by rw [hq2, hq1], a1 ++ a2, by rw [ht2, ht1, List.append_assoc], ?_⟩
  rw [List.filter_append, hf1, hf2]
  rfl

theorem quiet_emit (w : World) (e : Event) (he : e.is_loop_level = false) :
    Quiet w (w.emit e) :=
  ⟨rfl, [e], rfl, by simp [List.filter_cons, he]⟩

theorem quiet_conn (w : World) (c : Connection) : Quiet w { w with conn := c } :=
  ⟨rfl, [], by simp, rfl⟩

theorem close_quiet (w w1 : World) (h : Connection.close true w = .ok w1) : Quiet w w1 := by
  have h2 : w1 = Connection.close_cb (w.emit (Event.post_callback Callback.close)) := by
    simp only [Connection.close, EventLoop.post, if_true, Except.ok.injEq] at h
    exact h.symm
  subst h2
  exact quiet_trans _ _ _ (quiet_emit w (Event.post_callback Callback.close) rfl) (framed_quiet Callback.close _ _ (close_cb_framed _ _))

theorem force_close_quiet (w w1 : World) (h : Connection.force_close true w = .ok w1) :
    Quiet w w1 := by
  have h2 : Connection.force_close_cb (w.emit (Event.post_callback Callback.force_close))
      = .ok w1 := h
  exact quiet_trans _ _ _ (quiet_emit w (Event.post_callback Callback.force_close) rfl)
    (framed_quiet Callback.force_close _ _ (force_close_cb_framed _ _ _ h2))

theorem read_cb_quiet (n : Int) (received : List Byte) (w w1 : World)
    (h : Connection.read_cb true n received w = .ok w1) : Quiet w w1 := by
  unfold Connection.read_cb at h
  by_cases hn : n < 0
  · simp only [hn, if_true, Bool.false_eq_true, if_false, if_true] at h
    by_cases he : w.conn.error_callback_ = true
    · simp only [he, if_true] at h
      exact quiet_trans _ _ _ (quiet_emit w Event.error_callback rfl) (force_close_quiet _ _ h)
    · simp only [he, Bool.false_eq_true, if_false, if_true] at h
      exact force_close_quiet _ _ h
  · simp only [hn, if_false, Bool.false_eq_true, if_false, if_true] at h
    by_cases h0 : n = 0
    · subst h0
      simp only [beq_self_eq_true, if_true, Bool.false_eq_true, if_false, if_true] at h
      cases hch : w.conn.channel_ with
      | none => simp [hch] at h
      | some ch =>
        simp only [hch, Bool.false_eq_true, if_false, if_true] at h
        exact quiet_trans _ _ _ (quiet_conn w _) (close_quiet _ _ h)
    · have h0b : (n == 0) = false := by simpa using h0
      simp only [h0b, Bool.false_eq_true, if_false, Bool.false_eq_true, if_false, if_true] at h
      by_cases hr : w.conn.read_message_callback_ = true
      · simp only [hr, if_true, Except.ok.injEq, Bool.false_eq_true, if_false, if_true] at h
        subst h
        exact quiet_emit w (Event.read_message_callback _) rfl
      · simp only [hr, Except.ok.injEq, Bool.false_eq_true, if_false, if_true] at h
        subst h
        exact quiet_refl w

theorem map_eq_ok {α β : Type} (f : α → β) (x : Except Error α) (y : β)
    (h : x.map f = .ok y) : ∃ a, x = .ok a ∧ y = f a := by
  cases x with
  | error e => simp [Except.map] at h
  | ok a =>
    simp only [Except.map, Except.ok.injEq, Bool.false_eq_true, if_false, if_true] at h
    exact ⟨a, rfl, h.symm⟩

theorem handle_write_quiet (wrote : Int) (w w1 : World)
    (h : Connection.handle_write true wrote w = .ok w1) : Quiet w w1 := by
  unfold Connection.handle_write at h
  cases hb : w.conn.buffer_out_ with
  | none => simp [hb] at h
  | some b =>
    simp only [hb, Bool.false_eq_true, if_false, if_true] at h
    by_cases hem : b.empty = true
    · simp [hem] at h
    · simp only [hem, if_false, Bool.false_eq_true, if_false, if_true] at h
      by_cases ht : (b.write_to_fd wrote).1 < 0
      · simp only [ht, if_true, Bool.false_eq_true, if_false, if_true] at h
        obtain ⟨w2, h2, h3⟩ := map_eq_ok _ _ _ h
        subst h3
        have hq := quiet_trans _ _ _ (quiet_conn w _) (force_close_quiet _ _ h2)
        by_cases he : w2.conn.error_callback_ = true
        · simp only [he, if_true]
          exact quiet_trans _ _ _ hq (quiet_emit w2 Event.error_callback rfl)
        · simp only [he, Bool.false_eq_true, if_false]
          exact hq
      · simp only [ht, if_false, Bool.false_eq_true, if_false, if_true] at h
        by_cases h0 : ((b.write_to_fd wrote).1 == 0) = true
        · simp only [h0, if_true, Bool.false_eq_true, if_false, if_true] at h
          exact quiet_trans _ _ _ (quiet_conn w _) (force_close_quiet _ _ h)
        · simp only [h0, if_false, Bool.false_eq_true, if_false, if_true] at h
          by_cases hd : (w.conn.state_ == State.Disconnecting) = true
          · simp only [hd, if_true, Bool.false_eq_true, if_false, if_true] at h
            cases hch : w.conn.channel_ with
            | none => simp [hch] at h
            | some ch =>
              simp only [hch, Bool.false_eq_true, if_false, if_true] at h
              exact quiet_trans _ _ _ (quiet_conn w _) (close_quiet _ _ h)
          · simp only [hd, if_false, Bool.false_eq_true, if_false, if_true] at h
            by_cases hdr : (b.write_to_fd wrote).2.empty = true
            · simp only [hdr, if_true, Bool.false_eq_true, if_false, if_true] at h
              cases hch : w.conn.channel_ with
              | none => simp [hch] at h
              | some ch =>
                simp only [hch, Except.ok.injEq, Bool.false_eq_true, if_false, if_true] at h
                subst h
                exact quiet_conn w _
            · simp only [hdr, if_false, Except.ok.injEq, Bool.false_eq_true, if_false, if_true] at h
              subst h
              exact quiet_conn w _

theorem handle_read_quiet (r : Ready) (w w1 : World)
    (h : Channel.handle_read true r w = .ok w1) : Quiet w w1 := by
  unfold Channel.handle_read at h
  split at h
  · simp only [Except.ok.injEq] at h
    subst h
    exact ⟨rfl, [], by simp [EventLoop.wakeup_read_cb], rfl⟩
  · split at h
    · exact read_cb_quiet _ _ _ _ h
    · simp only [Except.ok.injEq] at h
      subst h
      exact quiet_refl w

theorem handle_wirte_quiet (r : Ready) (w w1 : World)
    (h : Channel.handle_wirte true r w = .ok w1) : Quiet w w1 := by
  unfold Channel.handle_wirte at h
  split at h
  · exact handle_write_quiet _ _ _ h
  · simp only [Except.ok.injEq] at h
    subst h
    exact quiet_refl w

/-- One ready key: the pending queue is not touched and the calls `run` makes
are the handlers of the key, readable before writable. -/
theorem dispatch_trace (r : Ready) (w w1 : World)
    (h : EventLoop.dispatch true r w = .ok w1) :
    w1.loop.callbacks_ = w.loop.callbacks_ ∧
      ∃ added, w1.trace = w.trace ++ added ∧
        added.filter Event.is_loop_level = r.key.dispatch_events := by
  unfold EventLoop.dispatch at h
  have step1 : ∀ wa : World,
      (if r.key.is_readable then
        Channel.handle_read true r (w.emit (Event.handle_read r.key.fd)) else .ok w) = .ok wa →
      wa.loop.callbacks_ = w.loop.callbacks_ ∧
        ∃ added, wa.trace = w.trace ++ added ∧
          added.filter Event.is_loop_level
            = (if r.key.is_readable then [Event.handle_read r.key.fd] else []) := by
    intro wa hwa
    by_cases hr : r.key.is_readable = true
    · simp only [hr, if_true] at hwa ⊢
      obtain ⟨hq, a, ht, hf⟩ := handle_read_quiet r _ _ hwa
      refine ⟨hq, Event.handle_read r.key.fd :: a, by rw [ht]; simp [World.emit], ?_⟩
      simp [List.filter_cons, Event.is_loop_level, hf]
    · simp only [hr, Bool.false_eq_true, if_false, Except.ok.injEq] at hwa ⊢
      subst hwa
      exact ⟨rfl, [], by simp, by simp⟩
  cases h1 : (if r.key.is_readable then
      Channel.handle_read true r (w.emit (Event.handle_read r.key.fd)) else .ok w) with
  | error e => simp [h1] at h
  | ok wa =>
    simp only [h1] at h
    obtain ⟨hq1, a1, ht1, hf1⟩ := step1 wa h1
    by_cases hw : r.key.is_writable = true
    · simp only [hw, if_true] at h
      obtain ⟨hq2, a2, ht2, hf2⟩ := handle_wirte_quiet r _ _ h
      refine ⟨by rw [hq2]; exact hq1, a1 ++ Event.handle_wirte r.key.fd :: a2, ?_, ?_⟩
      · rw [ht2]; simp [World.emit, ht1]
      · simp [SelectionKey.dispatch_events, List.filter_append, List.filter_cons, hf1, hf2, hw,
          Event.is_loop_level]
    · simp only [hw, Bool.false_eq_true, if_false, Except.ok.injEq] at h
      subst h
      refine ⟨hq1, a1, ht1, ?_⟩
      simp [SelectionKey.dispatch_events, hf1, hw]

theorem dispatch_all_trace (keys : List Ready) :
    ∀ w w1 : World, EventLoop.dispatch_all true keys w = .ok w1 →
      w1.loop.callbacks_ = w.loop.callbacks_ ∧
        ∃ added, w1.trace = w.trace ++ added ∧
          added.filter Event.is_loop_level
            = keys.flatMap (fun r => r.key.dispatch_events) := by
  induction keys with
  | nil =>
    intro w w1 h
    simp only [EventLoop.dispatch_all, Except.ok.injEq] at h
    subst h
    exact ⟨rfl, [], by simp, by simp⟩
  | cons r keys ih =>
    intro w w1 h
    simp only [EventLoop.dispatch_all] at h
    cases hd : EventLoop.dispatch true r w with
    | error e => simp [hd] at h
    | ok wa =>
      simp only [hd] at h
      obtain ⟨hq1, a1, ht1, hf1⟩ := dispatch_trace r w wa hd
      obtain ⟨hq2, a2, ht2, hf2⟩ := ih wa w1 h
      refine ⟨by rw [hq2, hq1], a1 ++ a2, by rw [ht2, ht1, List.append_assoc], ?_⟩
      simp [List.filter_append, hf1, hf2]

theorem run_callbacks_trace (q : List Callback) :
    ∀ w w1 : World, EventLoop.run_callbacks true q w = .ok w1 →
      w1.loop.callbacks_ = w.loop.callbacks_ ∧
      ∃ rest, w1.trace = w.trace ++ rest ∧
        rest.filter Event.is_loop_level = q.map Event.run_callback := by
  induction q with
  | nil =>
    intro w w1 h
    simp only [EventLoop.run_callbacks, Except.ok.injEq] at h
    subst h
    exact ⟨rfl, [], by simp, by simp⟩
  | cons cb q ih =>
    intro w w1 h
    simp only [EventLoop.run_callbacks] at h
    cases hr : Callback.run true cb (w.emit (Event.run_callback cb)) with
    | error e => simp [hr] at h
    | ok w2 =>
      simp only [hr] at h
      obtain ⟨hq, rest, ht, hf⟩ := ih w2 w1 h
      have hfr := Callback.run_framed cb _ _ hr
      obtain ⟨delta, hd1, hd2⟩ := framed_filter_trace cb _ _ hfr
      refine ⟨by rw [hq, hfr.1]; rfl, Event.run_callback cb :: (delta ++ rest), ?_, ?_⟩
      · rw [ht, hd1]; simp [World.emit]
      · simp [List.filter_cons, Event.is_loop_level, hd2, hf]

theorem Callback.run_allocated (cb : Callback) (w : World) (h : w.conn.allocated) :
    ∃ w1, Callback.run true cb w = .ok w1 ∧ w1.conn.allocated := by
  obtain ⟨hch, hb⟩ := h
  obtain ⟨ch, hch⟩ := Option.isSome_iff_exists.1 hch
  obtain ⟨b, hb⟩ := Option.isSome_iff_exists.1 hb
  have hfc : ∀ w : World, ∀ ch b, w.conn.channel_ = some ch → w.conn.buffer_out_ = some b →
      ∃ w1, Connection.force_close_cb w = .ok w1 ∧ w1.conn.allocated := by
    intro w ch b hch hb
    unfold Connection.force_close_cb
    simp only [hb, hch]
    split
    · split <;> exact ⟨_, rfl, rfl, rfl⟩
    · exact ⟨_, rfl, rfl, rfl⟩
  cases cb with
  | close =>
    refine ⟨_, rfl, ?_⟩
    unfold Connection.close_cb
    split
    · by_cases hc : w.conn.connection_closed_callback_ = true <;>
        simp [Connection.allocated, World.emit, EventLoop.remove_connection, hch, hb, hc]
    · simp [Connection.allocated, hch, hb]
  | force_close => exact hfc w ch b hch hb
  | do_write data len =>
    simp only [Callback.run, Connection.do_write]
    by_cases hs : w.conn.state_ = State.Closed
    · simp only [hs, beq_self_eq_true, if_true]
      exact hfc (w.emit (Event.post_callback Callback.force_close)) ch b hch hb
    · have hs2 : (w.conn.state_ == State.Closed) = false := by simpa using hs
      simp only [hs2, hch, hb, Bool.false_eq_true, if_false]
      exact ⟨_, rfl, rfl, rfl⟩
  | new_connection =>
    refine ⟨_, rfl, ?_⟩
    simp [EventLoop.on_new_connection_cb, Connection.accept, Connection.allocated, hb]
  | other id => exact ⟨_, rfl, by simp [Connection.allocated, hch, hb]⟩

theorem run_callbacks_allocated (q : List Callback) :
    ∀ w : World, w.conn.allocated → ∃ w1, EventLoop.run_callbacks true q w = .ok w1 := by
  induction q with
  | nil => intro w _; exact ⟨w, rfl⟩
  | cons cb q ih =>
    intro w h
    obtain ⟨w2, hr, h2⟩ := Callback.run_allocated cb (w.emit (Event.run_callback cb)) h
    obtain ⟨w1, h1⟩ := ih w2 h2
    exact ⟨w1, by simp only [EventLoop.run_callbacks, hr, h1]⟩

/-- The handlers of keys that are not the key of the connection return and
leave the connection as it is. -/
theorem dispatch_all_others (keys : List Ready) :
    ∀ w : World, (∀ r ∈ keys, r.key.fd ≠ w.conn.fd_) →
      ∃ w1, EventLoop.dispatch_all true keys w = .ok w1 ∧ w1.conn = w.conn := by
  induction keys with
  | nil => intro w _; exact ⟨w, rfl, rfl⟩
  | cons r keys ih =>
    intro w h
    have hr : r.key.fd ≠ w.conn.fd_ := h r (List.mem_cons_self _ _)
    have hread : ∀ wa : World, wa.conn = w.conn →
        ∃ wb, Channel.handle_read true r wa = .ok wb ∧ wb.conn = w.conn := by
      intro wa hwa
      unfold Channel.handle_read
      have hr2 : ¬ (r.key.fd = wa.conn.fd_ ∧ wa.conn.channel_.isSome = true) := by
        rw [hwa]; exact fun hc => hr hc.1
      by_cases hwk : r.key.fd = wa.loop.wakeup_fd_
      · simp only [hwk, if_true]
        exact ⟨_, rfl, hwa⟩
      · simp only [hwk, hr2, if_false]
        exact ⟨_, rfl, hwa⟩
    have hwrite : ∀ wa : World, wa.conn = w.conn →
        ∃ wb, Channel.handle_wirte true r wa = .ok wb ∧ wb.conn = w.conn := by
      intro wa hwa
      unfold Channel.handle_wirte
      have hr2 : ¬ (r.key.fd = wa.conn.fd_ ∧ wa.conn.channel_.isSome = true) := by
        rw [hwa]; exact fun hc => hr hc.1
      simp only [hr2, if_false]
      exact ⟨_, rfl, hwa⟩
    have hdisp : ∃ wa, EventLoop.dispatch true r w = .ok wa ∧ wa.conn = w.conn := by
      unfold EventLoop.dispatch
      by_cases h1 : r.key.is_readable = true
      · obtain ⟨wb, hb1, hb2⟩ := hread (w.emit (Event.handle_read r.key.fd)) rfl
        simp only [h1, if_true, hb1]
        by_cases h2 : r.key.is_writable = true
        · obtain ⟨wc, hc1, hc2⟩ := hwrite (wb.emit (Event.handle_wirte r.key.fd)) hb2
          simp only [h2, if_true, hc1]
          exact ⟨_, rfl, hc2⟩
        · simp only [h2, Bool.false_eq_true, if_false]
          exact ⟨_, rfl, hb2⟩
      · simp only [h1, Bool.false_eq_true, if_false]
        by_cases h2 : r.key.is_writable = true
        · obtain ⟨wc, hc1, hc2⟩ := hwrite (w.emit (Event.handle_wirte r.key.fd)) rfl
          simp only [h2, if_true, hc1]
          exact ⟨_, rfl, hc2⟩
        · simp only [h2, Bool.false_eq_true, if_false]
          exact ⟨_, rfl, rfl⟩
    obtain ⟨wa, hd1, hd2⟩ := hdisp
    obtain ⟨w1, h1, h2⟩ := ih wa (by
      intro r2 hr2
      rw [hd2]
      exact h r2 (List.mem_cons_of_mem _ hr2))
    exact ⟨w1, by simp only [EventLoop.dispatch_all, hd1, h1], by rw [h2, hd2]⟩

/-- C6, amended. Loop iteration ordering. For every return of `select` inside
`run` that reports at least one ready key and every content of the pending
queue at that point: when the turn ends, the calls `run` has made are, for
each ready key in order, the readable handler and then the writable handler,
and only after all of them every pending callback in FIFO order, and the
pending queue is left empty; and the turn does end when the channel and the
egress buffer of the connection are allocated and no ready key is the key of
the connection, so that no handler and no pending closure leaves through a
null pointer or `exit`. -/
theorem run_iteration_ordering (active_keys : List Ready) (w : World)
    (hkeys : active_keys ≠ []) :
    EventLoop.IterationOrdered active_keys w ∧
      (w.conn.allocated → (∀ r ∈ active_keys, r.key.fd ≠ w.conn.fd_) →
        ∃ w1, EventLoop.run_iteration true active_keys w = .ok w1) := by
  have hne : active_keys.isEmpty = false := by
    cases active_keys with
    | nil => exact absurd rfl hkeys
    | cons _ _ => rfl
  constructor
  · intro w1 hw1
    unfold EventLoop.run_iteration at hw1
    simp only [hne, Bool.false_eq_true, if_false] at hw1
    cases hd : EventLoop.dispatch_all true active_keys w with
    | error e => simp [hd] at hw1
    | ok wa =>
      simp only [hd] at hw1
      obtain ⟨hq1, a1, ht1, hf1⟩ := dispatch_all_trace active_keys w wa hd
      obtain ⟨hq2, a2, ht2, hf2⟩ := run_callbacks_trace _ _ _ hw1
      refine ⟨hq2, a1 ++ a2, ?_, ?_⟩
      · rw [ht2]
        show wa.trace ++ a2 = _
        rw [ht1, List.append_assoc]
      · rw [List.filter_append, hf1, hf2, hq1]
  · intro halloc hothers
    unfold EventLoop.run_iteration
    simp only [hne, Bool.false_eq_true, if_false]
    obtain ⟨wa, hd1, hd2⟩ := dispatch_all_others active_keys w hothers
    simp only [hd1]
    exact run_callbacks_allocated _ _ (by
      show wa.conn.allocated
      rw [hd2]; exact halloc)

/-! ## EventLoop::post -/

/-- C7. `EventLoop::post` dispatch. On the owner thread the callback is called
exactly once, in place: it starts from a world whose pending queue, wakeup
descriptor, map and connection are the ones `post` was given, the only trace
of `post` being the record of that one call, and what `post` returns is what
the callback returns; for the closures of this library, when `post` returns
the pending queue and the wakeup descriptor are as before and the callback has
been called once. From any other thread the callback is not called: the
connection and the trace are as before, the callback is the new last entry of
the pending queue, the earlier entries keeping their order, and the wakeup
descriptor has been written once. -/
theorem post_dispatch (cb : Callback) (body : Bool → World → Except Error World) (w : World) :
    (∃ w0 : World, w0.loop = w.loop ∧ w0.conn = w.conn ∧
        w0.trace = w.trace ++ [Event.post_callback cb] ∧
        EventLoop.post true cb body w = body true w0) ∧
    (∀ w1 : World, EventLoop.post true cb (fun t => Callback.run t cb) w = .ok w1 →
        w1.loop.callbacks_ = w.loop.callbacks_ ∧ w1.loop.wakeup_count = w.loop.wakeup_count ∧
        w1.trace.count (Event.post_callback cb) = w.trace.count (Event.post_callback cb) + 1) ∧
    (∃ w2 : World, EventLoop.post false cb body w = .ok w2 ∧
        w2.conn = w.conn ∧ w2.trace = w.trace ∧
        w2.loop.callbacks_ = w.loop.callbacks_ ++ [cb] ∧
        w2.loop.wakeup_count = w.loop.wakeup_count + 1 ∧
        w2.loop.connections_ = w.loop.connections_) := by
  refine ⟨⟨w.emit (Event.post_callback cb), rfl, rfl, rfl, rfl⟩, ?_,
    ⟨_, rfl, rfl, rfl, rfl, rfl, rfl⟩⟩
  intro w1 h
  have hfr : Framed cb (w.emit (Event.post_callback cb)) w1 := Callback.run_framed cb _ _ h
  refine ⟨hfr.1, hfr.2.1, ?_⟩
  rw [framed_count_post cb _ _ hfr]
  simp [World.emit]

/-- The closures `Connection.cpp` and `EventLoop.cpp` hand to `post` are the
ones `Callback.run` runs under the same name. -/
theorem post_sites (inLoop : Bool) (w : World) (data : List Byte) (len : Nat) :
    Connection.close inLoop w
        = EventLoop.post inLoop Callback.close (fun t => Callback.run t Callback.close) w ∧
    Connection.force_close inLoop w
        = EventLoop.post inLoop Callback.force_close
            (fun t => Callback.run t Callback.force_close) w ∧
    (inLoop = false → w.conn.is_closed = false →
      Connection.write inLoop data len w
        = (EventLoop.post inLoop (Callback.do_write (data.take len) len)
            (fun t => Callback.run t (Callback.do_write (data.take len) len)) w).map
              (fun w1 => (true, w1))) := by
  refine ⟨rfl, rfl, ?_⟩
  intro h1 h2
  subst h1
  simp only [Connection.write, h2, Bool.false_eq_true, if_false]
  rfl

/-- With no ready key the turn of `run` goes straight back to `select`: nothing
is dispatched and the pending queue is not drained. -/
theorem run_iteration_no_key (inLoop : Bool) (w : World) :
    EventLoop.run_iteration inLoop [] w = .ok w := rfl

/-! ## Connection::write -/

theorem queued_eq_contents (c : Connection) (b : CircularBuffer) (h : c.buffer_out_ = some b) :
    c.queued = b.contents := by
  simp [Connection.queued, h]

/-- The function `do_write` on a connection that is not closed: the bytes are appended and
writable interest is on. -/
theorem do_write_appends (inLoop : Bool) (data : List Byte) (len : Nat) (w w1 : World)
    (hs : w.conn.state_ ≠ State.Closed) (hwf : w.conn.buffer_WF)
    (h : Connection.do_write inLoop data len w = .ok w1) :
    w1.conn.queued = w.conn.queued ++ data.take len ∧
      w1.loop = w.loop ∧ w1.trace = w.trace ∧ w1.conn.state_ = w.conn.state_ ∧
      (∃ ch, w.conn.channel_ = some ch ∧ w1.conn.channel_ = some ch.enable_writing) ∧
      w1.conn.buffer_WF := by
  have hs2 : (w.conn.state_ == State.Closed) = false := by simpa using hs
  unfold Connection.do_write at h
  simp only [hs2, Bool.false_eq_true, if_false] at h
  cases hch : w.conn.channel_ with
  | none => simp [hch] at h
  | some ch =>
    simp only [hch, Except.ok.injEq] at h
    subst h
    cases hb : w.conn.buffer_out_ with
    | none =>
      refine ⟨?_, rfl, rfl, rfl, ⟨ch, rfl, rfl⟩, ?_⟩
      · simp [Connection.queued, hb,
          CircularBuffer.put_contents _ _ (CircularBuffer.new_WF len),
          CircularBuffer.new_contents]
      · intro b hb2
        simp only [Option.some.injEq] at hb2
        subst hb2
        exact CircularBuffer.put_WF _ _ (CircularBuffer.new_WF len)
    | some b =>
      refine ⟨?_, rfl, rfl, rfl, ⟨ch, rfl, rfl⟩, ?_⟩
      · simp [Connection.queued, hb, CircularBuffer.put_contents _ _ (hwf b hb)]
      · intro b2 hb2
        simp only [Option.some.injEq] at hb2
        subst hb2
        exact CircularBuffer.put_WF _ _ (hwf b hb)

theorem do_write_returns (inLoop : Bool) (data : List Byte) (len : Nat) (w : World)
    (hs : w.conn.state_ ≠ State.Closed) (hch : w.conn.channel_.isSome = true) :
    ∃ w1, Connection.do_write inLoop data len w = .ok w1 := by
  have hs2 : (w.conn.state_ == State.Closed) = false := by simpa using hs
  obtain ⟨ch, hch⟩ := Option.isSome_iff_exists.1 hch
  unfold Connection.do_write
  simp only [hs2, Bool.false_eq_true, if_false, hch]
  exact ⟨_, rfl⟩

theorem is_closed_iff (c : Connection) : c.is_closed = true ↔ c.state_ = State.Closed := by
  simp [Connection.is_closed]

/-- C5. Writing to a closed connection is rejected without effect. For every
connection whose egress buffer, when allocated, is well formed, every payload
and every calling thread: each overload of `write` returns false exactly when
the state is `Closed`; when it returns false the world is the one it was given
(egress buffer, interest mask of the channel, pending queue and all the rest);
when it returns true on the owner thread the payload has been appended to the
egress buffer; and on a connection that has its channel `write` returns. -/
theorem write_rejected_iff_closed (inLoop : Bool) (data : List Byte) (len : Nat)
    (buffer : ByteBuffer) (w : World) (hwf : w.conn.buffer_WF) :
    ((∃ w1, Connection.write inLoop data len w = .ok (false, w1))
        ↔ w.conn.state_ = State.Closed) ∧
    ((∃ w1, Connection.write_buffer inLoop buffer w = .ok (false, w1))
        ↔ w.conn.state_ = State.Closed) ∧
    (∀ w1, Connection.write inLoop data len w = .ok (false, w1) → w1 = w) ∧
    (∀ w1, Connection.write_buffer inLoop buffer w = .ok (false, w1) → w1 = w) ∧
    (∀ w1, Connection.write true data len w = .ok (true, w1) →
        w1.conn.queued = w.conn.queued ++ data.take len) ∧
    (∀ w1, Connection.write_buffer true buffer w = .ok (true, w1) →
        w1.conn.queued = w.conn.queued ++ buffer.data.take buffer.remaining) ∧
    (w.conn.channel_.isSome = true →
        (∃ r, Connection.write inLoop data len w = .ok r) ∧
        (∃ r, Connection.write_buffer inLoop buffer w = .ok r)) := by
  by_cases hs : w.conn.state_ = State.Closed
  · have hc : w.conn.is_closed = true := (is_closed_iff _).2 hs
    have e1 : Connection.write inLoop data len w = .ok (false, w) := by
      simp [Connection.write, hc]
    have e2 : Connection.write_buffer inLoop buffer w = .ok (false, w) := by
      simp [Connection.write_buffer, hc]
    have e3 : Connection.write true data len w = .ok (false, w) := by
      simp [Connection.write, hc]
    have e4 : Connection.write_buffer true buffer w = .ok (false, w) := by
      simp [Connection.write_buffer, hc]
    refine ⟨⟨fun _ => hs, fun _ => ⟨w, e1⟩⟩, ⟨fun _ => hs, fun _ => ⟨w, e2⟩⟩, ?_, ?_, ?_, ?_, ?_⟩
    · intro w1 h; rw [e1] at h; simp at h; exact h.symm
    · intro w1 h; rw [e2] at h; simp at h; exact h.symm
    · intro w1 h; rw [e3] at h; simp at h
    · intro w1 h; rw [e4] at h; simp at h
    · intro _; exact ⟨⟨_, e1⟩, ⟨_, e2⟩⟩
  · have hc : w.conn.is_closed = false := by
      cases h : w.conn.is_closed with
      | false => rfl
      | true => exact absurd ((is_closed_iff _).1 h) hs
    have t1 : ∀ r, Connection.write inLoop data len w = .ok r → r.1 = true := by
      intro r h
      unfold Connection.write at h
      simp only [hc, Bool.false_eq_true, if_false] at h
      cases inLoop with
      | true =>
        simp only [if_true] at h
        cases hd : Connection.do_write true data len w with
        | error e => simp [hd, Except.map] at h
        | ok w2 => simp [hd, Except.map] at h; rw [← h]
      | false =>
        simp [EventLoop.post, Except.map] at h
        rw [← h]
    have t2 : ∀ r, Connection.write_buffer inLoop buffer w = .ok r → r.1 = true := by
      intro r h
      unfold Connection.write_buffer at h
      simp only [hc, Bool.false_eq_true, if_false] at h
      cases inLoop with
      | true =>
        simp only [if_true] at h
        cases hd : Connection.do_write true buffer.data buffer.remaining w with
        | error e => simp [hd, Except.map] at h
        | ok w2 => simp [hd, Except.map] at h; rw [← h]
      | false =>
        simp [EventLoop.post, Except.map] at h
        rw [← h]
    refine ⟨⟨?_, fun h => absurd h hs⟩, ⟨?_, fun h => absurd h hs⟩, ?_, ?_, ?_, ?_, ?_⟩
    · rintro ⟨w1, h⟩; have := t1 _ h; simp at this
    · rintro ⟨w1, h⟩; have := t2 _ h; simp at this
    · intro w1 h; have := t1 _ h; simp at this
    · intro w1 h; have := t2 _ h; simp at this
    · intro w1 h
      unfold Connection.write at h
      simp only [hc, Bool.false_eq_true, if_false, if_true] at h
      cases hd : Connection.do_write true data len w with
      | error e => simp [hd, Except.map] at h
      | ok w2 =>
        simp [hd, Except.map] at h
        subst h
        exact (do_write_appends true data len w w2 hs hwf hd).1
    · intro w1 h
      unfold Connection.write_buffer at h
      simp only [hc, Bool.false_eq_true, if_false, if_true] at h
      cases hd : Connection.do_write true buffer.data buffer.remaining w with
      | error e => simp [hd, Except.map] at h
      | ok w2 =>
        simp [hd, Except.map] at h
        subst h
        exact (do_write_appends true buffer.data buffer.remaining w w2 hs hwf hd).1
    · intro hch
      constructor
      · unfold Connection.write
        simp only [hc, Bool.false_eq_true, if_false]
        cases inLoop with
        | true =>
          obtain ⟨w2, hd⟩ := do_write_returns true data len w hs hch
          exact ⟨(true, w2), by simp [hd, Except.map]⟩
        | false => exact ⟨_, rfl⟩
      · unfold Connection.write_buffer
        simp only [hc, Bool.false_eq_true, if_false]
        cases inLoop with
        | true =>
          obtain ⟨w2, hd⟩ := do_write_returns true buffer.data buffer.remaining w hs hch
          exact ⟨(true, w2), by simp [hd, Except.map]⟩
        | false => exact ⟨_, rfl⟩

/-! ## The sample worlds are reachable -/

theorem Example.accepted_reachable :
    EventLoop.on_new_connection true 5 (World.boot (EventLoop.new 3 true true))
      = .ok Example.accepted := by
  rfl

theorem Example.queued_reachable :
    Connection.write true [1, 2] 2 Example.with_error_callback = .ok (true, Example.queued) := by
  rfl

theorem Example.disconnecting_reachable :
    Connection.close true Example.queued = .ok Example.disconnecting := by
  rfl

theorem Example.posted_reachable :
    EventLoop.post false (Callback.other 7) (fun t => Callback.run t (Callback.other 7))
      (World.boot (EventLoop.new 3 true true)) = .ok Example.posted := by
  rfl

/-! ## force_close before the egress buffer exists -/

theorem force_close_cb_null (w : World) (h : w.conn.buffer_out_ = none) :
    Connection.force_close_cb w = .error Error.null_pointer := by
  simp [Connection.force_close_cb, h]

theorem force_close_cb_eq (w : World) (b : CircularBuffer) (ch : Channel)
    (hb : w.conn.buffer_out_ = some b) (hch : w.conn.channel_ = some ch) :
    Connection.force_close_cb w = .ok
      (if w.conn.fd_ ∈ w.loop.connections_ then
        EventLoop.remove_connection w.conn.fd_
          (if w.conn.connection_closed_callback_ then
            (Connection.force_closed w b ch).emit Event.connection_closed_callback
           else Connection.force_closed w b ch)
       else Connection.force_closed w b ch) := by
  obtain ⟨⟨ch0, fd, st, bo, r, c, e⟩, loop, tr⟩ := w
  simp only at hb hch
  subst hb hch
  by_cases hin : fd ∈ loop.connections_ <;> cases c <;>
    simp [Connection.force_close_cb, Connection.force_closed, hin, World.emit,
      EventLoop.remove_connection]

theorem force_close_eq (w : World) : Connection.force_close true w
    = Connection.force_close_cb (w.emit (Event.post_callback Callback.force_close)) := rfl

theorem force_close_null (w : World) (h : w.conn.buffer_out_ = none) :
    Connection.force_close true w = .error Error.null_pointer := by
  simp [Connection.force_close, EventLoop.post, Connection.force_close_cb, World.emit, h]

/-- C10. Unguarded egress-buffer access in `force_close`. For every loop whose
established callback does not reject and every fd, the connection built and
accepted by `on_new_connection` on the owner thread is in state `Receiving`,
installed in the map, with its egress buffer still unallocated; on it
`force_close()` executed on the owner thread clears the buffer through the null
pointer, and so does the read handler on a negative read and the error
handler of the channel. -/
theorem force_close_unallocated_buffer (loop : EventLoop) (fd : Nat)
    (haccept : loop.established_callback_ ≠ some false) :
    ∃ w : World, EventLoop.on_new_connection true fd (World.boot loop) = .ok w ∧
      w.conn.state_ = State.Receiving ∧ w.conn.buffer_out_ = none ∧
      fd ∈ w.loop.connections_ ∧
      Connection.force_close true w = .error Error.null_pointer ∧
      (∀ (n : Int) (received : List Byte), n < 0 →
        Connection.read_cb true n received w = .error Error.null_pointer) ∧
      Connection.error_cb true w = .error Error.null_pointer := by
  have hacc : (match loop.established_callback_ with
      | none => true
      | some verdict => verdict) = true := by
    cases h : loop.established_callback_ with
    | none => rfl
    | some v =>
      cases v with
      | true => rfl
      | false => exact absurd h haccept
  refine ⟨EventLoop.on_new_connection_cb
    ({ World.boot loop with conn := { Connection.new fd with
        read_message_callback_ := loop.read_message_callback_,
        connection_closed_callback_ := loop.connection_closed_callback_ } }.emit
      (Event.post_callback Callback.new_connection)), ?_, ?_, ?_, ?_, ?_, ?_, ?_⟩
  · simp only [EventLoop.on_new_connection, World.boot, hacc]
    rfl
  · rfl
  · rfl
  · simp only [EventLoop.on_new_connection_cb, World.emit, Connection.accept, Connection.new]
    split <;> simp_all
  · exact force_close_null _ rfl
  · intro n received hn
    simp only [Connection.read_cb, hn, if_true]
    exact force_close_null _ (by split <;> rfl)
  · exact force_close_null _ rfl

/-- The instance of C10 on connection 5. -/
theorem force_close_unallocated_buffer_witness :
    (EventLoop.new 3 true true).established_callback_ ≠ some false ∧
    ∃ w : World,
      EventLoop.on_new_connection true 5 (World.boot (EventLoop.new 3 true true)) = .ok w ∧
      w.conn.state_ = State.Receiving ∧ w.conn.buffer_out_ = none ∧
      5 ∈ w.loop.connections_ ∧
      Connection.force_close true w = .error Error.null_pointer ∧
      (∀ (n : Int) (received : List Byte), n < 0 →
        Connection.read_cb true n received w = .error Error.null_pointer) ∧
      Connection.error_cb true w = .error Error.null_pointer :=
  ⟨by decide, force_close_unallocated_buffer (EventLoop.new 3 true true) 5 (by decide)⟩

/-! ## The write handler -/

/-- A positive scatter write on a connection in state `Receiving`: writable
interest is taken off exactly when the buffer drained. -/
theorem handle_write_receiving (w : World) (b : CircularBuffer) (ch : Channel) (wrote : Int)
    (hs : w.conn.state_ = State.Receiving) (hb : w.conn.buffer_out_ = some b)
    (hne : b.empty = false) (hch : w.conn.channel_ = some ch) (hw : ch.writing = true)
    (hpos : 0 < (b.write_to_fd wrote).1) :
    ∃ w1 ch1, Connection.handle_write true wrote w = .ok w1 ∧
      w1.conn.buffer_out_ = some (b.write_to_fd wrote).2 ∧
      w1.conn.channel_ = some ch1 ∧ ch1.reading = ch.reading ∧
      (ch1.writing = false ↔ (b.write_to_fd wrote).2.empty = true) ∧
      w1.conn.state_ = State.Receiving ∧ w1.loop = w.loop ∧ w1.trace = w.trace := by
  have h1 : ¬ (b.write_to_fd wrote).1 < 0 := by omega
  have h2 : ((b.write_to_fd wrote).1 == 0) = false := by
    simp only [beq_eq_false_iff_ne, ne_eq]; omega
  unfold Connection.handle_write
  simp only [hb, hne, Bool.false_eq_true, if_false, h1, h2, hs, hch]
  have h3 : (State.Receiving == State.Disconnecting) = false := by decide
  simp only [h3, Bool.false_eq_true, if_false]
  cases he : (b.write_to_fd wrote).2.empty with
  | true =>
    simp only [if_true]
    exact ⟨_, _, rfl, rfl, rfl, rfl, by simp [Channel.disable_writing], rfl, rfl, rfl⟩
  | false =>
    simp only [Bool.false_eq_true, if_false]
    exact ⟨_, _, rfl, rfl, rfl, rfl, by simp [hw], rfl, rfl, rfl⟩

/-- A positive scatter write on a connection in state `Disconnecting`: writable
interest is taken off whether or not the buffer drained. -/
theorem handle_write_disconnecting (w : World) (b : CircularBuffer) (ch : Channel) (wrote : Int)
    (hs : w.conn.state_ = State.Disconnecting) (hb : w.conn.buffer_out_ = some b)
    (hne : b.empty = false) (hch : w.conn.channel_ = some ch)
    (hpos : 0 < (b.write_to_fd wrote).1) :
    Connection.handle_write true wrote w
      = Connection.close true { w with conn := { w.conn with
          buffer_out_ := some (b.write_to_fd wrote).2,
          channel_ := some ch.disable_writing } } := by
  have h1 : ¬ (b.write_to_fd wrote).1 < 0 := by omega
  have h2 : ((b.write_to_fd wrote).1 == 0) = false := by
    simp only [beq_eq_false_iff_ne, ne_eq]; omega
  unfold Connection.handle_write
  simp only [hb, hne, Bool.false_eq_true, if_false, h1, h2, hs, hch, beq_self_eq_true, if_true]

/-- C3, the failing input. Connection 5 is in state `Disconnecting` with the
two bytes 1, 2 queued and writable interest on; the writable event writes one
byte. The write handler returns with writable interest off although the byte 2
is still queued, and the state is still `Disconnecting`. -/
theorem handle_write_disconnecting_short_write :
    Example.disconnecting.conn.state_ = State.Disconnecting ∧
    Example.disconnecting.conn.queued = [1, 2] ∧
    Example.disconnecting.conn.channel_ = some { reading := true, writing := true } ∧
    ∃ w1 : World, Connection.handle_write true 1 Example.disconnecting = .ok w1 ∧
      w1.conn.channel_ = some { reading := true, writing := false } ∧
      w1.conn.queued = [2] ∧
      w1.conn.has_bytes_to_write = true ∧
      w1.conn.state_ = State.Disconnecting ∧
      5 ∈ w1.loop.connections_ := by
  refine ⟨rfl, by decide, rfl, _, rfl, rfl, by decide, by decide, rfl, by decide⟩

/-- A negative read on a connection whose channel and buffer are allocated and
which is in the map: the error callback, when installed, is invoked before the
closed callback. -/
theorem read_cb_negative_trace (w : World) (n : Int) (received : List Byte)
    (hn : n < 0) (ha : w.conn.allocated) (hin : w.conn.fd_ ∈ w.loop.connections_)
    (he : w.conn.error_callback_ = true) (hc : w.conn.connection_closed_callback_ = true) :
    ∃ w1, Connection.read_cb true n received w = .ok w1 ∧
      w1.trace = w.trace ++ [Event.error_callback, Event.post_callback Callback.force_close,
        Event.connection_closed_callback, Event.remove_connection w.conn.fd_] := by
  obtain ⟨hch, hb⟩ := ha
  obtain ⟨ch, hch⟩ := Option.isSome_iff_exists.1 hch
  obtain ⟨b, hb⟩ := Option.isSome_iff_exists.1 hb
  have h1 : Connection.read_cb true n received w
      = Connection.force_close_cb ((w.emit Event.error_callback).emit
          (Event.post_callback Callback.force_close)) := by
    simp only [Connection.read_cb, hn, if_true, he]
    rfl
  rw [h1, force_close_cb_eq ((w.emit Event.error_callback).emit
      (Event.post_callback Callback.force_close)) b ch hb hch]
  refine ⟨_, rfl, ?_⟩
  have hin2 : ((w.emit Event.error_callback).emit
      (Event.post_callback Callback.force_close)).conn.fd_ ∈ ((w.emit Event.error_callback).emit
      (Event.post_callback Callback.force_close)).loop.connections_ := hin
  have hc2 : ((w.emit Event.error_callback).emit
      (Event.post_callback Callback.force_close)).conn.connection_closed_callback_ = true := hc
  rw [if_pos hin2, if_pos hc2]
  simp [EventLoop.remove_connection, World.emit, Connection.force_closed]

/-- A negative scatter write on a connection whose channel is allocated and
which is in the map: the closed callback is invoked before the error callback. -/
theorem handle_write_negative_trace (w : World) (b : CircularBuffer) (wrote : Int)
    (hw : wrote < 0) (hb : w.conn.buffer_out_ = some b) (hne : b.empty = false)
    (hch : w.conn.channel_.isSome = true) (hin : w.conn.fd_ ∈ w.loop.connections_)
    (he : w.conn.error_callback_ = true) (hc : w.conn.connection_closed_callback_ = true) :
    ∃ w1, Connection.handle_write true wrote w = .ok w1 ∧
      w1.trace = w.trace ++ [Event.post_callback Callback.force_close,
        Event.connection_closed_callback, Event.remove_connection w.conn.fd_,
        Event.error_callback] := by
  obtain ⟨ch, hch⟩ := Option.isSome_iff_exists.1 hch
  have h0 : b.write_to_fd wrote = (wrote, b) := by simp [CircularBuffer.write_to_fd, hw]
  have h1 : Connection.handle_write true wrote w
      = (Connection.force_close_cb (w.emit (Event.post_callback Callback.force_close))).map
          (fun w2 => if w2.conn.error_callback_ then w2.emit Event.error_callback else w2) := by
    simp only [Connection.handle_write, hb, hne, Bool.false_eq_true, if_false, h0, hw, if_true]
    have : ({ w with conn := { w.conn with buffer_out_ := some b } } : World) = w := by
      cases w with
      | mk conn loop trace =>
        cases conn
        simp only [World.mk.injEq, Connection.mk.injEq, and_true, true_and] at hb ⊢
        exact hb.symm
    rw [this]
    rfl
  rw [h1, force_close_cb_eq (w.emit (Event.post_callback Callback.force_close)) b ch hb hch]
  have hin2 : (w.emit (Event.post_callback Callback.force_close)).conn.fd_
      ∈ (w.emit (Event.post_callback Callback.force_close)).loop.connections_ := hin
  have hc2 : (w.emit (Event.post_callback Callback.force_close)).conn.connection_closed_callback_
      = true := hc
  rw [if_pos hin2, if_pos hc2]
  refine ⟨_, rfl, ?_⟩
  have he2 : (EventLoop.remove_connection
      (w.emit (Event.post_callback Callback.force_close)).conn.fd_
      ((Connection.force_closed (w.emit (Event.post_callback Callback.force_close)) b ch).emit
        Event.connection_closed_callback)).conn.error_callback_ = true := he
  simp only []
  rw [if_pos he2]
  simp [EventLoop.remove_connection, World.emit, Connection.force_closed]

/-- C4, the failing input. Connection 5 is accepted and installed with an error
and a closed callback, in state `Receiving`, with the bytes 1, 2 queued; the
writable event gets -1 from the scatter write. The write handler invokes the
closed callback first and the error callback after it. -/
theorem handle_write_error_after_closed :
    Example.queued.conn.state_ = State.Receiving ∧
    Example.queued.conn.error_callback_ = true ∧
    Example.queued.conn.connection_closed_callback_ = true ∧
    ∃ w1 : World, Connection.handle_write true (-1) Example.queued = .ok w1 ∧
      w1.trace = Example.queued.trace ++ [Event.post_callback Callback.force_close,
        Event.connection_closed_callback, Event.remove_connection 5, Event.error_callback] :=
  ⟨rfl, rfl, rfl, _, rfl, rfl⟩

/-- C6, the input on which the ordering fails. Another thread has posted one
callback and `select` returns with no ready key: the turn of `run` ends with
the callback still pending and not called. -/
theorem run_iteration_no_ready_key_keeps_queue :
    ¬ EventLoop.IterationOrdered [] Example.posted := by
  intro h
  have hq := (h Example.posted rfl).1
  simp [Example.posted] at hq

/-! ## Teardown -/

/-- A graceful event while bytes are queued: nothing fires, the state becomes
`Disconnecting`. -/
theorem step_graceful_queued (e : CloseEvent) (w : World) (hr : w.Ready)
    (he : e.is_graceful = true) (hq : w.conn.has_bytes_to_write = true) :
    ∃ w1, CloseEvent.step true e w = .ok w1 ∧ w1.Ready ∧ w1.conn.fd_ = w.conn.fd_ ∧
      w1.loop.connections_ = w.loop.connections_ ∧ w1.conn.has_bytes_to_write = true ∧
      w1.conn.state_ = State.Disconnecting ∧
      w1.closed_count = w.closed_count ∧
      w1.remove_count w.conn.fd_ = w.remove_count w.conn.fd_ := by
  obtain ⟨⟨hch0, hb0⟩, hc⟩ := hr
  obtain ⟨ch, hch⟩ := Option.isSome_iff_exists.1 hch0
  obtain ⟨b, hb⟩ := Option.isSome_iff_exists.1 hb0
  clear hch0 hb0
  obtain ⟨⟨ch0, fd, st, bo, r, c, er⟩, loop, tr⟩ := w
  simp only at hb hch hc
  subst hb hch hc
  have hq2 : b.empty = false := by simpa [Connection.has_bytes_to_write] using hq
  cases e with
  | close =>
    refine ⟨_, rfl, ?_⟩
    simp [Connection.close_cb, World.emit, Connection.has_bytes_to_write, hq2, World.Ready,
      Connection.allocated, World.closed_count, World.remove_count]
  | read_zero =>
    refine ⟨_, rfl, ?_⟩
    simp [Connection.close_cb, World.emit, Connection.has_bytes_to_write, hq2, World.Ready,
      Connection.allocated, World.closed_count, World.remove_count]
  | force_close => simp [CloseEvent.is_graceful] at he
  | idle_expiry => simp [CloseEvent.is_graceful] at he

/-- The function `force_close()` on a connection still in the map. -/
theorem force_close_installed (w : World) (hr : w.Ready)
    (hin : w.conn.fd_ ∈ w.loop.connections_) :
    ∃ w1, Connection.force_close true w = .ok w1 ∧ w1.Ready ∧ w1.conn.fd_ = w.conn.fd_ ∧
      w1.conn.fd_ ∉ w1.loop.connections_ ∧
      w1.conn.state_ = State.Closed ∧ w1.conn.has_bytes_to_write = false ∧
      w1.closed_count = w.closed_count + 1 ∧
      w1.remove_count w.conn.fd_ = w.remove_count w.conn.fd_ + 1 := by
  obtain ⟨⟨hch0, hb0⟩, hc⟩ := hr
  obtain ⟨ch, hch⟩ := Option.isSome_iff_exists.1 hch0
  obtain ⟨b, hb⟩ := Option.isSome_iff_exists.1 hb0
  rw [force_close_eq, force_close_cb_eq (w.emit (Event.post_callback Callback.force_close))
    b ch hb hch]
  have hin2 : (w.emit (Event.post_callback Callback.force_close)).conn.fd_
      ∈ (w.emit (Event.post_callback Callback.force_close)).loop.connections_ := hin
  have hc2 : (w.emit (Event.post_callback Callback.force_close)).conn.connection_closed_callback_
      = true := hc
  rw [if_pos hin2, if_pos hc2]
  refine ⟨_, rfl, ?_⟩
  simp [World.emit, World.Ready, hc, Connection.force_closed, Connection.has_bytes_to_write,
    CircularBuffer.clear, CircularBuffer.empty,
    Connection.allocated, World.closed_count, World.remove_count, EventLoop.remove_connection,
    List.count_append]

/-- The function `force_close()` on a connection that has left the map: nothing fires. -/
theorem force_close_removed (w : World) (hr : w.Ready)
    (hout : w.conn.fd_ ∉ w.loop.connections_) :
    ∃ w1, Connection.force_close true w = .ok w1 ∧ w1.Ready ∧ w1.conn.fd_ = w.conn.fd_ ∧
      w1.conn.fd_ ∉ w1.loop.connections_ ∧
      w1.conn.state_ = State.Closed ∧
      w1.closed_count = w.closed_count ∧
      w1.remove_count w.conn.fd_ = w.remove_count w.conn.fd_ := by
  obtain ⟨⟨hch0, hb0⟩, hc⟩ := hr
  obtain ⟨ch, hch⟩ := Option.isSome_iff_exists.1 hch0
  obtain ⟨b, hb⟩ := Option.isSome_iff_exists.1 hb0
  rw [force_close_eq, force_close_cb_eq (w.emit (Event.post_callback Callback.force_close))
    b ch hb hch]
  have hout2 : (w.emit (Event.post_callback Callback.force_close)).conn.fd_
      ∉ (w.emit (Event.post_callback Callback.force_close)).loop.connections_ := hout
  rw [if_neg hout2]
  refine ⟨_, rfl, ?_⟩
  refine ⟨⟨⟨rfl, rfl⟩, hc⟩, rfl, hout, rfl, ?_, ?_⟩ <;>
    simp [World.emit, Connection.force_closed, World.closed_count, World.remove_count,
      List.count_append]

/-- A graceful event on a connection still in the map with no bytes queued. -/
theorem step_graceful_empty (e : CloseEvent) (w : World) (hr : w.Ready)
    (he : e.is_graceful = true) (hq : w.conn.has_bytes_to_write = false) :
    ∃ w1, CloseEvent.step true e w = .ok w1 ∧ w1.Ready ∧ w1.conn.fd_ = w.conn.fd_ ∧
      w1.conn.fd_ ∉ w1.loop.connections_ ∧
      w1.conn.state_ = State.Closed ∧
      w1.closed_count = w.closed_count + 1 ∧
      w1.remove_count w.conn.fd_ = w.remove_count w.conn.fd_ + 1 := by
  obtain ⟨⟨hch0, hb0⟩, hc⟩ := hr
  obtain ⟨ch, hch⟩ := Option.isSome_iff_exists.1 hch0
  obtain ⟨b, hb⟩ := Option.isSome_iff_exists.1 hb0
  clear hch0 hb0
  obtain ⟨⟨ch0, fd, st, bo, r, c, er⟩, loop, tr⟩ := w
  simp only at hb hch hc
  subst hb hch hc
  have hq2 : b.empty = true := by simpa [Connection.has_bytes_to_write] using hq
  cases e with
  | close =>
    refine ⟨_, rfl, ?_⟩
    simp [Connection.close_cb, World.emit, Connection.has_bytes_to_write, hq2, World.Ready,
      Connection.allocated, World.closed_count, World.remove_count, EventLoop.remove_connection,
      List.count_append]
  | read_zero =>
    refine ⟨_, rfl, ?_⟩
    simp [Connection.close_cb, World.emit, Connection.has_bytes_to_write, hq2, World.Ready,
      Connection.allocated, World.closed_count, World.remove_count, EventLoop.remove_connection,
      List.count_append]
  | force_close => simp [CloseEvent.is_graceful] at he
  | idle_expiry => simp [CloseEvent.is_graceful] at he

/-- An event that tears down, on a connection still in the map: the closed
callback and `remove_connection` fire once each and the fd leaves the map. -/
theorem step_teardown (e : CloseEvent) (w : World) (hr : w.Ready)
    (hin : w.conn.fd_ ∈ w.loop.connections_)
    (he : e.is_graceful = false ∨ w.conn.has_bytes_to_write = false) :
    ∃ w1, CloseEvent.step true e w = .ok w1 ∧ w1.Ready ∧ w1.conn.fd_ = w.conn.fd_ ∧
      w1.conn.fd_ ∉ w1.loop.connections_ ∧
      w1.closed_count = w.closed_count + 1 ∧
      w1.remove_count w.conn.fd_ = w.remove_count w.conn.fd_ + 1 := by
  cases hg : e.is_graceful with
  | true =>
    have hq : w.conn.has_bytes_to_write = false := by
      rcases he with he | he
      · rw [hg] at he; exact absurd he (by decide)
      · exact he
    obtain ⟨w1, h1, h2, h3, h4, _, h6, h7⟩ := step_graceful_empty e w hr hg hq
    exact ⟨w1, h1, h2, h3, h4, h6, h7⟩
  | false =>
    obtain ⟨w1, h1, h2, h3, h4, _, _, h6, h7⟩ := force_close_installed w hr hin
    refine ⟨w1, ?_, h2, h3, h4, h6, h7⟩
    cases e with
    | close => simp [CloseEvent.is_graceful] at hg
    | read_zero => simp [CloseEvent.is_graceful] at hg
    | force_close => exact h1
    | idle_expiry => exact h1

/-- A forced event on a connection that has left the map: nothing fires. -/
theorem step_removed (e : CloseEvent) (w : World) (hr : w.Ready)
    (hout : w.conn.fd_ ∉ w.loop.connections_) (he : e.is_graceful = false) :
    ∃ w1, CloseEvent.step true e w = .ok w1 ∧ w1.Ready ∧ w1.conn.fd_ = w.conn.fd_ ∧
      w1.conn.fd_ ∉ w1.loop.connections_ ∧
      w1.closed_count = w.closed_count ∧
      w1.remove_count w.conn.fd_ = w.remove_count w.conn.fd_ := by
  obtain ⟨w1, h1, h2, h3, h4, _, h6, h7⟩ := force_close_removed w hr hout
  refine ⟨w1, ?_, h2, h3, h4, h6, h7⟩
  cases e with
  | close => simp [CloseEvent.is_graceful] at he
  | read_zero => simp [CloseEvent.is_graceful] at he
  | force_close => exact h1
  | idle_expiry => exact h1

theorem steps_cons (e : CloseEvent) (es : List CloseEvent) (w w1 : World)
    (h : CloseEvent.step true e w = .ok w1) :
    CloseEvent.steps true (e :: es) w = CloseEvent.steps true es w1 := by
  simp only [CloseEvent.steps, h]

theorem guarded_cons (e : CloseEvent) (es : List CloseEvent) (w w1 : World)
    (h : CloseEvent.step true e w = .ok w1) (hg : CloseEvent.guarded true (e :: es) w = true) :
    (e.is_graceful = true → w.conn.fd_ ∈ w.loop.connections_) ∧
      CloseEvent.guarded true es w1 = true := by
  simp only [CloseEvent.guarded, h, Bool.and_eq_true, Bool.or_eq_true, Bool.not_eq_true',
    decide_eq_true_eq] at hg
  refine ⟨fun he => ?_, hg.2⟩
  rcases hg.1 with h1 | h1
  · rw [he] at h1; exact absurd h1 (by decide)
  · exact h1

/-- Once the connection has left the map, a guarded sequence fires nothing. -/
theorem steps_removed (es : List CloseEvent) :
    ∀ w : World, w.Ready → w.conn.fd_ ∉ w.loop.connections_ →
      CloseEvent.guarded true es w = true →
      ∃ w1, CloseEvent.steps true es w = .ok w1 ∧
        w1.closed_count = w.closed_count ∧
        w1.remove_count w.conn.fd_ = w.remove_count w.conn.fd_ := by
  induction es with
  | nil => intro w _ _ _; exact ⟨w, rfl, rfl, rfl⟩
  | cons e es ih =>
    intro w hr hout hg
    have he : e.is_graceful = false := by
      cases hgr : e.is_graceful with
      | false => rfl
      | true =>
        simp only [CloseEvent.guarded, hgr, Bool.not_true, Bool.false_or, Bool.and_eq_true,
          decide_eq_true_eq] at hg
        exact absurd hg.1 hout
    obtain ⟨w1, h1, hr1, hfd, hout1, hc1, hm1⟩ := step_removed e w hr hout he
    obtain ⟨_, hg1⟩ := guarded_cons e es w w1 h1 hg
    obtain ⟨w2, h2, hc2, hm2⟩ := ih w1 hr1 hout1 hg1
    refine ⟨w2, by rw [steps_cons e es w w1 h1]; exact h2, by rw [hc2, hc1], ?_⟩
    rw [hfd] at hm2
    rw [hm2, hm1]

/-- A guarded sequence on a connection still in the map ends; the closed
callback and `remove_connection` fire once each when the sequence holds a
tearing event, and not at all otherwise. -/
theorem steps_installed (es : List CloseEvent) :
    ∀ w : World, w.Ready → w.conn.fd_ ∈ w.loop.connections_ →
      CloseEvent.guarded true es w = true →
      ∃ w1, CloseEvent.steps true es w = .ok w1 ∧
        ((CloseEvent.fires es w ∧ w1.closed_count = w.closed_count + 1 ∧
            w1.remove_count w.conn.fd_ = w.remove_count w.conn.fd_ + 1) ∨
         (¬ CloseEvent.fires es w ∧ w1.closed_count = w.closed_count ∧
            w1.remove_count w.conn.fd_ = w.remove_count w.conn.fd_)) := by
  induction es with
  | nil =>
    intro w _ _ _
    refine ⟨w, rfl, Or.inr ⟨?_, rfl, rfl⟩⟩
    simp [CloseEvent.fires]
  | cons e es ih =>
    intro w hr hin hg
    by_cases hstay : e.is_graceful = true ∧ w.conn.has_bytes_to_write = true
    · obtain ⟨hge, hq⟩ := hstay
      obtain ⟨w1, h1, hr1, hfd, hmap, hq1, _, hc1, hm1⟩ := step_graceful_queued e w hr hge hq
      obtain ⟨_, hg1⟩ := guarded_cons e es w w1 h1 hg
      have hin1 : w1.conn.fd_ ∈ w1.loop.connections_ := by rw [hfd, hmap]; exact hin
      obtain ⟨w2, h2, hres⟩ := ih w1 hr1 hin1 hg1
      have hiff : CloseEvent.fires (e :: es) w ↔ CloseEvent.fires es w1 := by
        simp only [CloseEvent.fires, List.mem_cons, exists_eq_or_imp, hge, hq, hq1, ne_eq,
          Bool.true_eq_false, false_or, and_false, or_false, reduceCtorEq, not_false_eq_true]
      refine ⟨w2, by rw [steps_cons e es w w1 h1]; exact h2, ?_⟩
      rw [hfd] at hres
      rcases hres with ⟨hf, hc2, hm2⟩ | ⟨hf, hc2, hm2⟩
      · exact Or.inl ⟨hiff.2 hf, by rw [hc2, hc1], by rw [hm2, hm1]⟩
      · exact Or.inr ⟨fun h => hf (hiff.1 h), by rw [hc2, hc1], by rw [hm2, hm1]⟩
    · have htear : e.is_graceful = false ∨ w.conn.has_bytes_to_write = false := by
        cases hge : e.is_graceful with
        | false => exact Or.inl rfl
        | true =>
          right
          cases hq : w.conn.has_bytes_to_write with
          | false => rfl
          | true => exact absurd ⟨hge, hq⟩ hstay
      obtain ⟨w1, h1, hr1, hfd, hout1, hc1, hm1⟩ := step_teardown e w hr hin htear
      obtain ⟨_, hg1⟩ := guarded_cons e es w w1 h1 hg
      obtain ⟨w2, h2, hc2, hm2⟩ := steps_removed es w1 hr1 hout1 hg1
      have hf : CloseEvent.fires (e :: es) w := by
        rcases htear with h | h
        · exact Or.inl ⟨e, List.mem_cons_self _ _, h⟩
        · exact Or.inr ⟨List.cons_ne_nil _ _, h⟩
      refine ⟨w2, by rw [steps_cons e es w w1 h1]; exact h2, Or.inl ⟨hf, by rw [hc2, hc1], ?_⟩⟩
      rw [hfd] at hm2
      rw [hm2, hm1]

/-- C1, the input on which exactly-once fails. Connection 5 is accepted and
installed with the bytes 1, 2 queued; the sequence is the single event
`close()` on the owner thread. The connection becomes `Disconnecting`: the
closed callback does not fire and `remove_connection` is not called. -/
theorem close_with_queued_bytes_fires_nothing :
    ¬ CloseEvent.TeardownOnce [CloseEvent.close] Example.queued := by
  rintro ⟨w1, h, hc, _⟩
  have hstep : CloseEvent.steps true [CloseEvent.close] Example.queued
      = .ok Example.disconnecting := rfl
  rw [hstep] at h
  simp only [Except.ok.injEq] at h
  subst h
  revert hc
  decide

/-- C1, amended. Teardown happens at most once and by one event. For every
connection accepted and installed in the map of its loop, with the closed
callback installed and the egress buffer allocated, and every sequence of
`close()`, `force_close()`, zero-byte-read and idle-expiry events processed on
the owner thread in which each `close()` and zero-byte read is processed while
the connection is still in the map: the sequence ends, the closed callback and
`remove_connection(fd)` have fired equally often and at most once, and each has
fired exactly once if and only if the sequence holds a `force_close()` or an
idle expiry, or is not empty and starts with no bytes queued. -/
theorem teardown_exactly_once (es : List CloseEvent) (w : World)
    (hch : w.conn.channel_.isSome = true) (hbuf : w.conn.buffer_out_.isSome = true)
    (hcb : w.conn.connection_closed_callback_ = true)
    (hin : w.conn.fd_ ∈ w.loop.connections_)
    (hguard : CloseEvent.guarded true es w = true) :
    (CloseEvent.TeardownOnce es w ↔ CloseEvent.fires es w) ∧
    ∃ w1 : World, CloseEvent.steps true es w = .ok w1 ∧
      w1.closed_count ≤ w.closed_count + 1 ∧
      w1.closed_count + w.remove_count w.conn.fd_
        = w.closed_count + w1.remove_count w.conn.fd_ := by
  obtain ⟨w1, h1, hres⟩ := steps_installed es w ⟨⟨hch, hbuf⟩, hcb⟩ hin hguard
  constructor
  · constructor
    · rintro ⟨w2, h2, hc2, _⟩
      rw [h1] at h2
      simp only [Except.ok.injEq] at h2
      subst h2
      rcases hres with ⟨hf, _, _⟩ | ⟨_, hc, _⟩
      · exact hf
      · omega
    · intro hf
      rcases hres with ⟨_, hc, hm⟩ | ⟨hnf, _, _⟩
      · exact ⟨w1, h1, hc, hm⟩
      · exact absurd hf hnf
  · refine ⟨w1, h1, ?_, ?_⟩ <;> rcases hres with ⟨_, hc, hm⟩ | ⟨_, hc, hm⟩ <;> omega

/-- The instance of the amended C1 on connection 5 with two bytes queued and
the events `close()`, `force_close()`, idle expiry. -/
theorem teardown_exactly_once_witness :
    CloseEvent.guarded true
      [CloseEvent.close, CloseEvent.force_close, CloseEvent.idle_expiry] Example.queued = true ∧
    CloseEvent.TeardownOnce
      [CloseEvent.close, CloseEvent.force_close, CloseEvent.idle_expiry] Example.queued :=
  ⟨by decide,
    (teardown_exactly_once
      [CloseEvent.close, CloseEvent.force_close, CloseEvent.idle_expiry] Example.queued
      (by decide) (by decide) (by decide) (by decide) (by decide)).1.2
      (Or.inl ⟨CloseEvent.force_close, by decide, by decide⟩)⟩

/-! ## Instances -/

theorem Example.queued_buffer_WF : Example.queued.conn.buffer_WF := by
  intro b hb
  have : b = { storage := [1, 2], head := 0, tail := 2 } := by
    simp [Example.queued] at hb
    exact hb.symm
  subst this
  exact ⟨⟨1, rfl⟩, by decide, by decide⟩

/-- The instance of C5 on connection 5 with the bytes 1, 2 queued: a write of
3, 4, 5 on the owner thread returns true and the five bytes are queued. -/
theorem write_rejected_iff_closed_witness :
    Example.queued.conn.buffer_WF ∧
    (∃ r, Connection.write true [3, 4, 5] 3 Example.queued = .ok r) ∧
    (∀ w1, Connection.write true [3, 4, 5] 3 Example.queued = .ok (true, w1) →
        w1.conn.queued = Example.queued.conn.queued ++ [3, 4, 5]) :=
  ⟨Example.queued_buffer_WF,
    ((write_rejected_iff_closed true [3, 4, 5] 3 { data := [3, 4, 5], remaining := 3 }
      Example.queued Example.queued_buffer_WF).2.2.2.2.2.2 (by decide)).1,
    (write_rejected_iff_closed true [3, 4, 5] 3 { data := [3, 4, 5], remaining := 3 }
      Example.queued Example.queued_buffer_WF).2.2.2.2.1⟩

/-- The instance of the amended C6: the wakeup descriptor 3 and descriptor 9 are
ready and two callbacks are pending on the loop of connection 5. -/
theorem run_iteration_ordering_witness :
    Example.keys ≠ [] ∧
    EventLoop.IterationOrdered Example.keys Example.pending ∧
    ∃ w1, EventLoop.run_iteration true Example.keys Example.pending = .ok w1 :=
  ⟨by decide,
    (run_iteration_ordering Example.keys Example.pending (by decide)).1,
    (run_iteration_ordering Example.keys Example.pending (by decide)).2 ⟨rfl, rfl⟩ (by decide)⟩

/-- A turn evaluated: descriptor 5, the connection, is ready for reading and
writing; the read gives the byte 9 and the scatter write takes the two queued
bytes; then the two pending callbacks run. -/
theorem Example.pending_turn :
    (EventLoop.run_iteration true
      [{ key := { fd := 5, is_readable := true, is_writable := true, is_closed := false },
         read_n := 1, received := [9], wrote := 2 }]
      Example.pending).map (fun w => (w.trace.drop 1, w.loop.callbacks_, w.conn.queued))
      = .ok ([Event.handle_read 5, Event.read_message_callback [9], Event.handle_wirte 5,
              Event.run_callback (Callback.other 7),
              Event.run_callback (Callback.do_write [3] 1)], [], [3]) := by
  rfl

/-- A turn that does not end: descriptor 5 is ready for reading and writing and
the read fails. The read handler closes the connection by force, which clears
the egress buffer, and the write handler of the same key then finds the buffer
empty and leaves through `exit(-1)`. -/
theorem Example.stale_writable_turn :
    EventLoop.run_iteration true
      [{ key := { fd := 5, is_readable := true, is_writable := true, is_closed := false },
         read_n := -1, received := [], wrote := 2 }]
      Example.pending = .error (Error.exit (-1)) := by
  rfl

set_option maxRecDepth 100000 in
/-- The test `resize_0`: a buffer of size 2 takes and returns 100 bytes, twice. -/
theorem Example.test_resize_0 :
    (run_ops 2 [BufferOp.put (Example.buf_src 100), BufferOp.get 100,
        BufferOp.put (Example.buf_src 100), BufferOp.get 100]).returned
      = Example.buf_src 100 ++ Example.buf_src 100 := by
  rfl

/-- One round of the test on a buffer of size 30: 40 and 60 bytes in, 60 and 40
bytes out, in order; the capacity is 128 after it. -/
theorem Example.test_size_30 :
    (run_ops 30 [BufferOp.put ((Example.buf_src 100).take 40),
        BufferOp.put ((Example.buf_src 100).drop 40), BufferOp.get 60, BufferOp.get 40]).returned
      = Example.buf_src 100 ∧
    (CircularBuffer.new 30).capacity = 32 ∧
    (run_ops 30 [BufferOp.put ((Example.buf_src 100).take 40),
        BufferOp.put ((Example.buf_src 100).drop 40), BufferOp.get 60,
        BufferOp.get 40]).buffer.capacity = 128 := by
  refine ⟨?_, ?_, ?_⟩ <;> rfl

/-! ## The egress buffer stays well formed -/

theorem clear_WF (b : CircularBuffer) (h : b.WF) : b.clear.WF :=
  ⟨h.1, Nat.le_refl 0, Nat.zero_le _⟩

theorem write_to_fd_WF (b : CircularBuffer) (wrote : Int) (h : b.WF) :
    (b.write_to_fd wrote).2.WF := by
  obtain ⟨hk, hle, hsz⟩ := h
  unfold CircularBuffer.write_to_fd
  split
  · exact ⟨hk, hle, hsz⟩
  · refine ⟨hk, ?_, ?_⟩
    · simp only [CircularBuffer.readable]; omega
    · simp only [CircularBuffer.readable, CircularBuffer.capacity] at *; omega

theorem buffer_WF_of_eq (c c1 : Connection) (h : c1.buffer_out_ = c.buffer_out_)
    (hwf : c.buffer_WF) : c1.buffer_WF := by
  intro b hb
  exact hwf b (by rw [← h]; exact hb)

theorem close_cb_buffer (w : World) :
    (Connection.close_cb w).conn.buffer_out_ = w.conn.buffer_out_ := by
  unfold Connection.close_cb
  split
  · by_cases hc : w.conn.connection_closed_callback_ = true <;>
      simp [hc, World.emit, EventLoop.remove_connection]
  · rfl

theorem post_enqueue_buffer (cb : Callback) (body : Bool → World → Except Error World)
    (w w1 : World) (h : EventLoop.post false cb body w = .ok w1) :
    w1.conn = w.conn := by
  simp only [EventLoop.post, Bool.false_eq_true, if_false, Except.ok.injEq] at h
  subst h
  rfl

theorem force_close_cb_buffer_WF (w w1 : World) (hwf : w.conn.buffer_WF)
    (h : Connection.force_close_cb w = .ok w1) : w1.conn.buffer_WF := by
  cases hb : w.conn.buffer_out_ with
  | none => simp [Connection.force_close_cb, hb] at h
  | some b =>
    cases hch : w.conn.channel_ with
    | none => simp [Connection.force_close_cb, hb, hch] at h
    | some ch =>
      rw [force_close_cb_eq w b ch hb hch] at h
      simp only [Except.ok.injEq] at h
      subst h
      have hc : (Connection.force_closed w b ch).conn.buffer_WF := by
        intro b2 hb2
        simp only [Connection.force_closed, Option.some.injEq] at hb2
        subst hb2
        exact clear_WF b (hwf b hb)
      split
      · split
        · exact hc
        · exact hc
      · exact hc

theorem close_buffer_WF (inLoop : Bool) (w w1 : World) (hwf : w.conn.buffer_WF)
    (h : Connection.close inLoop w = .ok w1) : w1.conn.buffer_WF := by
  cases inLoop with
  | false => rw [post_enqueue_buffer _ _ _ _ h]; exact hwf
  | true =>
    simp only [Connection.close, EventLoop.post, if_true, Except.ok.injEq] at h
    subst h
    exact buffer_WF_of_eq _ _ (close_cb_buffer _) hwf

theorem force_close_buffer_WF (inLoop : Bool) (w w1 : World) (hwf : w.conn.buffer_WF)
    (h : Connection.force_close inLoop w = .ok w1) : w1.conn.buffer_WF := by
  cases inLoop with
  | false => rw [post_enqueue_buffer _ _ _ _ h]; exact hwf
  | true =>
    exact force_close_cb_buffer_WF (w.emit (Event.post_callback Callback.force_close)) w1 hwf h

theorem do_write_buffer_WF (inLoop : Bool) (data : List Byte) (len : Nat) (w w1 : World)
    (hwf : w.conn.buffer_WF) (h : Connection.do_write inLoop data len w = .ok w1) :
    w1.conn.buffer_WF := by
  by_cases hs : w.conn.state_ = State.Closed
  · have h2 : Connection.force_close inLoop w = .ok w1 := by
      simpa [Connection.do_write, hs] using h
    exact force_close_buffer_WF inLoop w w1 hwf h2
  · exact (do_write_appends inLoop data len w w1 hs hwf h).2.2.2.2.2

theorem write_buffer_WF (inLoop : Bool) (data : List Byte) (len : Nat) (w : World)
    (r : Bool × World) (hwf : w.conn.buffer_WF)
    (h : Connection.write inLoop data len w = .ok r) : r.2.conn.buffer_WF := by
  unfold Connection.write at h
  by_cases hc : w.conn.is_closed = true
  · simp only [hc, if_true, Except.ok.injEq] at h
    subst h
    exact hwf
  · simp only [hc, Bool.false_eq_true, if_false] at h
    cases inLoop with
    | true =>
      simp only [if_true] at h
      obtain ⟨w2, h2, h3⟩ := map_eq_ok _ _ _ h
      subst h3
      exact do_write_buffer_WF true data len w w2 hwf h2
    | false =>
      simp only [Bool.false_eq_true, if_false] at h
      obtain ⟨w2, h2, h3⟩ := map_eq_ok _ _ _ h
      subst h3
      show w2.conn.buffer_WF
      rw [post_enqueue_buffer _ _ _ _ h2]; exact hwf

theorem write_buffer_buffer_WF (inLoop : Bool) (buffer : ByteBuffer) (w : World)
    (r : Bool × World) (hwf : w.conn.buffer_WF)
    (h : Connection.write_buffer inLoop buffer w = .ok r) : r.2.conn.buffer_WF := by
  unfold Connection.write_buffer at h
  by_cases hc : w.conn.is_closed = true
  · simp only [hc, if_true, Except.ok.injEq] at h
    subst h
    exact hwf
  · simp only [hc, Bool.false_eq_true, if_false] at h
    cases inLoop with
    | true =>
      simp only [if_true] at h
      obtain ⟨w2, h2, h3⟩ := map_eq_ok _ _ _ h
      subst h3
      exact do_write_buffer_WF true buffer.data buffer.remaining w w2 hwf h2
    | false =>
      simp only [Bool.false_eq_true, if_false] at h
      obtain ⟨w2, h2, h3⟩ := map_eq_ok _ _ _ h
      subst h3
      show w2.conn.buffer_WF
      rw [post_enqueue_buffer _ _ _ _ h2]; exact hwf

theorem read_cb_buffer_WF (inLoop : Bool) (n : Int) (received : List Byte) (w w1 : World)
    (hwf : w.conn.buffer_WF) (h : Connection.read_cb inLoop n received w = .ok w1) :
    w1.conn.buffer_WF := by
  unfold Connection.read_cb at h
  by_cases hn : n < 0
  · simp only [hn, if_true] at h
    refine force_close_buffer_WF inLoop _ w1 ?_ h
    split <;> exact hwf
  · simp only [hn, if_false] at h
    by_cases h0 : n = 0
    · subst h0
      simp only [beq_self_eq_true, if_true] at h
      cases hch : w.conn.channel_ with
      | none => simp [hch] at h
      | some ch =>
        simp only [hch] at h
        refine close_buffer_WF inLoop
          { w with conn := { w.conn with channel_ := some ch.disable_reading } } w1 ?_ h
        exact buffer_WF_of_eq w.conn _ rfl hwf
    · have h0b : (n == 0) = false := by simpa using h0
      simp only [h0b, Bool.false_eq_true, if_false] at h
      split at h <;>
        (simp only [Except.ok.injEq] at h; subst h; exact hwf)

theorem handle_write_buffer_WF (inLoop : Bool) (wrote : Int) (w w1 : World)
    (hwf : w.conn.buffer_WF) (h : Connection.handle_write inLoop wrote w = .ok w1) :
    w1.conn.buffer_WF := by
  unfold Connection.handle_write at h
  cases hb : w.conn.buffer_out_ with
  | none => simp [hb] at h
  | some b =>
    simp only [hb] at h
    have hw2 : ∀ c : Connection, c.buffer_out_ = some (b.write_to_fd wrote).2 → c.buffer_WF := by
      intro c hc b2 hb2
      rw [hc] at hb2
      simp only [Option.some.injEq] at hb2
      subst hb2
      exact write_to_fd_WF b wrote (hwf b hb)
    by_cases hem : b.empty = true
    · simp [hem] at h
    · simp only [hem, Bool.false_eq_true, if_false] at h
      by_cases ht : (b.write_to_fd wrote).1 < 0
      · simp only [ht, if_true] at h
        obtain ⟨w2, h2, h3⟩ := map_eq_ok _ _ _ h
        subst h3
        have := force_close_buffer_WF inLoop _ w2 (hw2 _ rfl) h2
        split <;> exact this
      · simp only [ht, if_false] at h
        by_cases h0 : ((b.write_to_fd wrote).1 == 0) = true
        · simp only [h0, if_true] at h
          exact force_close_buffer_WF inLoop _ w1 (hw2 _ rfl) h
        · simp only [h0, Bool.false_eq_true, if_false] at h
          by_cases hd : (w.conn.state_ == State.Disconnecting) = true
          · simp only [hd, if_true] at h
            cases hch : w.conn.channel_ with
            | none => simp [hch] at h
            | some ch =>
              simp only [hch] at h
              exact close_buffer_WF inLoop _ w1 (hw2 _ rfl) h
          · simp only [hd, Bool.false_eq_true, if_false] at h
            by_cases hdr : (b.write_to_fd wrote).2.empty = true
            · simp only [hdr, if_true] at h
              cases hch : w.conn.channel_ with
              | none => simp [hch] at h
              | some ch =>
                simp only [hch, Except.ok.injEq] at h
                subst h
                exact hw2 _ rfl
            · simp only [hdr, Bool.false_eq_true, if_false, Except.ok.injEq] at h
              subst h
              exact hw2 _ rfl

theorem callback_run_buffer_WF (inLoop : Bool) (cb : Callback) (w w1 : World)
    (hwf : w.conn.buffer_WF) (h : Callback.run inLoop cb w = .ok w1) : w1.conn.buffer_WF := by
  cases cb with
  | close =>
    simp only [Callback.run, Except.ok.injEq] at h
    subst h
    exact buffer_WF_of_eq _ _ (close_cb_buffer _) hwf
  | force_close => exact force_close_cb_buffer_WF w w1 hwf h
  | do_write data len => exact do_write_buffer_WF inLoop data len w w1 hwf h
  | new_connection =>
    simp only [Callback.run, Except.ok.injEq] at h
    subst h
    exact buffer_WF_of_eq _ _ rfl hwf
  | other id =>
    simp only [Callback.run, Except.ok.injEq] at h
    subst h
    exact hwf

/-- Every call that reaches a connection keeps its egress buffer well formed;
a connection starts with no buffer. -/
theorem buffer_WF_kept (inLoop : Bool) (a : Action) (w w1 : World)
    (hwf : w.conn.buffer_WF) (h : a.apply inLoop w = .ok w1) : w1.conn.buffer_WF := by
  cases a with
  | write data len =>
    obtain ⟨r, h2, h3⟩ := map_eq_ok _ _ _ h
    subst h3
    exact write_buffer_WF inLoop data len w r hwf h2
  | write_buffer buffer =>
    obtain ⟨r, h2, h3⟩ := map_eq_ok _ _ _ h
    subst h3
    exact write_buffer_buffer_WF inLoop buffer w r hwf h2
  | close => exact close_buffer_WF inLoop w w1 hwf h
  | force_close => exact force_close_buffer_WF inLoop w w1 hwf h
  | readable n received => exact read_cb_buffer_WF inLoop n received w w1 hwf h
  | writable wrote => exact handle_write_buffer_WF inLoop wrote w w1 hwf h
  | error => exact force_close_buffer_WF inLoop w w1 hwf h
  | run_callback cb => exact callback_run_buffer_WF inLoop cb w w1 hwf h
  | idle_expiry => exact force_close_buffer_WF inLoop w w1 hwf h

theorem buffer_WF_new (fd : Nat) : (Connection.new fd).buffer_WF := by
  intro b hb
  simp [Connection.new] at hb

end net
